import Mathlib

/-!
Verification development for the `pyramid_redis_sessions` session library.

The Python sources (`util.py`, `session.py`, `__init__.py`) are shallowly
embedded here:

* byte strings become `List Nat` (each element a byte value),
* the Redis store becomes an explicit association list from keys to a
  stored value plus an optional TTL,
* fallible Python code (raising `ValueError`, `KeyError`, `TypeError`,
  msgpack decode errors, ...) returns `Except PyErr`,
* the HMAC-SHA1 digest from the standard library is treated as an external
  collaborator: definitions take an arbitrary `digest` function as a
  parameter, and theorems assume only the fact used by the code, namely
  that SHA-1 digests are 20 bytes long,
* the msgpack codec (`msgpack.Packer` / `msgpack.Unpacker`, external
  library) is modelled concretely on the value shapes the sessions store:
  nil, booleans, integers, raw byte strings, arrays and maps.
-/

/-- Python exception outcomes that the embedded code can produce. -/
inductive PyErr : Type where
  | typeError : PyErr
  | keyError : PyErr
  | valueError : PyErr
  | corruptPayload : PyErr
  | overflowError : PyErr
  | attributeError : PyErr
  | noRandomness : PyErr
  deriving DecidableEq, Repr

deriving instance DecidableEq for Except

/-- Byte strings are lists of byte values. -/
abbrev Bytes := List Nat

/-- Character of the RFC 4648 base32 alphabet (`A`..`Z`, `2`..`7`) at a
5-bit index, as its ASCII code. -/
def b32char (n : Nat) : Nat :=
  if n < 26 then 65 + n else 24 + n

/-- ASCII code of the base32 padding character `=`. -/
def b32pad : Nat := 61

/-- Embeds `base64.b32encode`: bytes are consumed in 5-byte groups, each
producing eight base32 characters; a final partial group is zero-padded to
a whole number of 5-bit digits and the output padded with `=` to a
multiple of eight characters. -/
def b32encode : Bytes → Bytes
  | a :: b :: c :: d :: e :: rest =>
      let n := a * 2 ^ 32 + b * 2 ^ 24 + c * 2 ^ 16 + d * 2 ^ 8 + e
      [b32char (n / 2 ^ 35 % 32), b32char (n / 2 ^ 30 % 32),
       b32char (n / 2 ^ 25 % 32), b32char (n / 2 ^ 20 % 32),
       b32char (n / 2 ^ 15 % 32), b32char (n / 2 ^ 10 % 32),
       b32char (n / 2 ^ 5 % 32), b32char (n % 32)] ++ b32encode rest
  | [a] =>
      [b32char (a / 8), b32char (a % 8 * 4)] ++ List.replicate 6 b32pad
  | [a, b] =>
      let n := a * 2 ^ 8 + b
      [b32char (n / 2 ^ 11), b32char (n / 2 ^ 6 % 32), b32char (n / 2 % 32),
       b32char (n % 2 * 16)] ++ List.replicate 4 b32pad
  | [a, b, c] =>
      let n := a * 2 ^ 16 + b * 2 ^ 8 + c
      [b32char (n / 2 ^ 19), b32char (n / 2 ^ 14 % 32), b32char (n / 2 ^ 9 % 32),
       b32char (n / 2 ^ 4 % 32), b32char (n % 16 * 2)] ++ List.replicate 3 b32pad
  | [a, b, c, d] =>
      let n := a * 2 ^ 24 + b * 2 ^ 16 + c * 2 ^ 8 + d
      [b32char (n / 2 ^ 27), b32char (n / 2 ^ 22 % 32), b32char (n / 2 ^ 17 % 32),
       b32char (n / 2 ^ 12 % 32), b32char (n / 2 ^ 7 % 32), b32char (n / 2 ^ 2 % 32),
       b32char (n % 4 * 8)] ++ List.replicate 1 b32pad
  | [] => []

/-- Embeds `pyramid.util.strings_differ`: reports `true` when the lengths
differ, otherwise accumulates one unit per differing position over the
zipped strings and reports whether the accumulator is nonzero. -/
def strings_differ (s1 s2 : Bytes) : Bool :=
  if s1.length ≠ s2.length then true
  else ((s1.zip s2).foldl (fun acc p => acc + (if p.1 ≠ p.2 then 1 else 0)) 0) ≠ 0

/-- Embeds `util.sign_session_id`: the base32-encoded HMAC digest of the
session id under the secret, prepended to the raw session id.  `digest`
stands for the external `hmac.new(secret, message, sha1).digest()`. -/
def sign_session_id (digest : Bytes → Bytes → Bytes) (session_id secret : Bytes) : Bytes :=
  b32encode (digest secret session_id) ++ session_id

/-- Embeds `util.unsign_session_id`: splits the cookie into a 32-byte
signature and the remaining session id, recomputes the signature over the
id and raises `ValueError` when `strings_differ` reports a mismatch. -/
def unsign_session_id (digest : Bytes → Bytes → Bytes) (cookie secret : Bytes) :
    Except PyErr Bytes :=
  let input_sig := cookie.take 32
  let session_id := cookie.drop 32
  if strings_differ (b32encode (digest secret session_id)) input_sig then
    Except.error PyErr.valueError
  else
    Except.ok session_id

theorem b32encode_cons5 (a b c d e : Nat) (rest : Bytes) :
    (b32encode (a :: b :: c :: d :: e :: rest)).length = 8 + (b32encode rest).length := by
  simp [b32encode]
  omega

theorem b32encode_length_mul5 : ∀ (n : Nat) (xs : Bytes), xs.length = 5 * n →
    (b32encode xs).length = 8 * n := by
  intro n
  induction n with
  | zero =>
      intro xs h
      have : xs = [] := List.length_eq_zero.mp (by omega)
      subst this
      simp [b32encode]
  | succ m ih =>
      intro xs h
      match xs with
      | [] => simp at h
      | [a] => simp at h; omega
      | [a, b] => simp at h; omega
      | [a, b, c] => simp at h; omega
      | [a, b, c, d] => simp at h; omega
      | a :: b :: c :: d :: e :: rest =>
          have hr : rest.length = 5 * m := by simp at h; omega
          rw [b32encode_cons5, ih rest hr]
          omega

theorem strings_differ_self (s : Bytes) : strings_differ s s = false := by
  have key : ∀ (t : Bytes) (acc : Nat),
      (List.foldl (fun acc (p : Nat × Nat) => acc + if p.1 = p.2 then 0 else 1) acc (t.zip t)) = acc := by
    intro t
    induction t with
    | nil => intro acc; rfl
    | cons a tl ih =>
        intro acc
        simpa [List.zip_cons_cons] using ih acc
  simp [strings_differ, key s 0]

theorem take_32_of_b32_append (sig rest : Bytes) (h : sig.length = 32) :
    (sig ++ rest).take 32 = sig := by
  rw [← h]
  exact List.take_left sig rest

theorem drop_32_of_b32_append (sig rest : Bytes) (h : sig.length = 32) :
    (sig ++ rest).drop 32 = rest := by
  rw [← h]
  exact List.drop_left sig rest

/-- C1: for every session id and secret, verifying a signed cookie with the
same secret recovers the original id, relying on the signature prefix being
exactly 32 bytes — the base32 encoding of a 20-byte HMAC-SHA1 digest — so
that the fixed-width split at byte 32 separates signature from id. -/
theorem unsign_sign_session_id (digest : Bytes → Bytes → Bytes)
    (session_id secret : Bytes) (hlen : (digest secret session_id).length = 20) :
    unsign_session_id digest (sign_session_id digest session_id secret) secret =
      Except.ok session_id := by
  have hsig : (b32encode (digest secret session_id)).length = 32 := by
    have := b32encode_length_mul5 4 (digest secret session_id) (by omega)
    omega
  unfold unsign_session_id sign_session_id
  simp only [take_32_of_b32_append _ _ hsig, drop_32_of_b32_append _ _ hsig,
    strings_differ_self]
  simp

/-- C1 witness: the round trip evaluated at a concrete 20-byte digest
function, session id and secret. -/
theorem unsign_sign_session_id_witness :
    ((fun _ _ => List.range 20) [7] [65, 66]).length = 20 ∧
      unsign_session_id (fun _ _ => List.range 20)
        (sign_session_id (fun _ _ => List.range 20) [65, 66] [7]) [7] =
        Except.ok [65, 66] :=
  ⟨by decide, unsign_sign_session_id (fun _ _ => List.range 20) [65, 66] [7] (by decide)⟩

/- Values the msgpack codec moves between Python and the store: `nil`
(Python `None`), booleans, integers, raw byte strings (Python 2 `str`),
arrays (lists) and maps (dicts).  Defined mutually with its own list and
pair-list types so that all recursion below stays structural. -/
mutual
inductive MPVal : Type where
  | nil : MPVal
  | bool (b : Bool) : MPVal
  | int (i : Int) : MPVal
  | str (s : Bytes) : MPVal
  | arr (l : MPList) : MPVal
  | map (m : MPPairs) : MPVal
  deriving DecidableEq

inductive MPList : Type where
  | nil : MPList
  | cons (hd : MPVal) (tl : MPList) : MPList
  deriving DecidableEq

inductive MPPairs : Type where
  | nil : MPPairs
  | cons (k : MPVal) (v : MPVal) (tl : MPPairs) : MPPairs
  deriving DecidableEq
end

/-- Number of elements of an embedded msgpack array. -/
def MPList.length : MPList → Nat
  | .nil => 0
  | .cons _ tl => tl.length + 1

/-- Number of entries of an embedded msgpack map. -/
def MPPairs.length : MPPairs → Nat
  | .nil => 0
  | .cons _ _ tl => tl.length + 1

/-- Big-endian bytes of a 16-bit value. -/
def be2 (n : Nat) : Bytes := [n / 2 ^ 8 % 256, n % 256]

/-- Big-endian bytes of a 32-bit value. -/
def be4 (n : Nat) : Bytes :=
  [n / 2 ^ 24 % 256, n / 2 ^ 16 % 256, n / 2 ^ 8 % 256, n % 256]

/-- Big-endian bytes of a 64-bit value. -/
def be8 (n : Nat) : Bytes :=
  [n / 2 ^ 56 % 256, n / 2 ^ 48 % 256, n / 2 ^ 40 % 256, n / 2 ^ 32 % 256,
   n / 2 ^ 24 % 256, n / 2 ^ 16 % 256, n / 2 ^ 8 % 256, n % 256]

/-- Integer branch of the msgpack packer: smallest of positive fixint,
uint8/16/32/64, negative fixint, int8/16/32/64; integers outside the
64-bit ranges make the packer raise, modelled as `none`. -/
def packInt (i : Int) : Option Bytes :=
  if 0 ≤ i then
    let n := i.toNat
    if n < 2 ^ 7 then some [n]
    else if n < 2 ^ 8 then some [0xcc, n]
    else if n < 2 ^ 16 then some (0xcd :: be2 n)
    else if n < 2 ^ 32 then some (0xce :: be4 n)
    else if n < 2 ^ 64 then some (0xcf :: be8 n)
    else none
  else
    if -32 ≤ i then some [(i + 2 ^ 8).toNat]
    else if -(2 ^ 7) ≤ i then some [0xd0, (i + 2 ^ 8).toNat]
    else if -(2 ^ 15) ≤ i then some (0xd1 :: be2 (i + 2 ^ 16).toNat)
    else if -(2 ^ 31) ≤ i then some (0xd2 :: be4 (i + 2 ^ 32).toNat)
    else if -(2 ^ 63) ≤ i then some (0xd3 :: be8 (i + 2 ^ 64).toNat)
    else none

/-- Raw-bytes branch of the msgpack packer (old wire format, as used by the
Python 2 era msgpack library): fixraw below 32 bytes, then raw16/raw32. -/
def packRaw (s : Bytes) : Option Bytes :=
  if s.length < 32 then some ((0xa0 + s.length) :: s)
  else if s.length < 2 ^ 16 then some (0xda :: be2 s.length ++ s)
  else if s.length < 2 ^ 32 then some (0xdb :: be4 s.length ++ s)
  else none

/-- Array header: fixarray below 16 elements, then array16/array32. -/
def arrHeader (n : Nat) : Option Bytes :=
  if n < 16 then some [0x90 + n]
  else if n < 2 ^ 16 then some (0xdc :: be2 n)
  else if n < 2 ^ 32 then some (0xdd :: be4 n)
  else none

/-- Map header: fixmap below 16 entries, then map16/map32. -/
def mapHeader (n : Nat) : Option Bytes :=
  if n < 16 then some [0x80 + n]
  else if n < 2 ^ 16 then some (0xde :: be2 n)
  else if n < 2 ^ 32 then some (0xdf :: be4 n)
  else none

/- Embeds `msgpack.Packer.pack` (so `util.serialize`) on the supported
value shapes; `none` models the exceptions the packer raises on values it
cannot represent. -/
mutual
def pack : MPVal → Option Bytes
  | .nil => some [0xc0]
  | .bool b => some [if b then 0xc3 else 0xc2]
  | .int i => packInt i
  | .str s => packRaw s
  | .arr l => do
      let hd ← arrHeader l.length
      let body ← packList l
      return hd ++ body
  | .map m => do
      let hd ← mapHeader m.length
      let body ← packPairs m
      return hd ++ body

def packList : MPList → Option Bytes
  | .nil => some []
  | .cons v tl => do
      let bv ← pack v
      let bt ← packList tl
      return bv ++ bt

def packPairs : MPPairs → Option Bytes
  | .nil => some []
  | .cons k v tl => do
      let bk ← pack k
      let bv ← pack v
      let bt ← packPairs tl
      return bk ++ bv ++ bt
end

/-- Embeds `util.serialize`: pack one object for storage. -/
def serialize (v : MPVal) : Option Bytes := pack v

/-- Splits off `n` bytes, failing (like the unpacker's out-of-data error)
when fewer are available. -/
def takeBytes (n : Nat) (bs : Bytes) : Option (Bytes × Bytes) :=
  if n ≤ bs.length then some (bs.take n, bs.drop n) else none

/- Embeds the msgpack unpacker: reads one object off the front of the
buffer and returns it with the unconsumed remainder.  `fuel` bounds the
recursion depth and is a model artifact: callers pass more fuel than any
buffer of that length can consume. -/
mutual
def parseVal : Nat → Bytes → Option (MPVal × Bytes)
  | 0, _ => none
  | _ + 1, [] => none
  | f + 1, b :: rest =>
      if b < 0x80 then some (.int b, rest)
      else if 0xe0 ≤ b then some (.int ((b : Int) - 2 ^ 8), rest)
      else if b < 0x90 then
        (parsePairs f (b - 0x80) rest).map (fun r => (.map r.1, r.2))
      else if b < 0xa0 then
        (parseList f (b - 0x90) rest).map (fun r => (.arr r.1, r.2))
      else if b < 0xc0 then
        (takeBytes (b - 0xa0) rest).map (fun r => (.str r.1, r.2))
      else if b = 0xc0 then some (.nil, rest)
      else if b = 0xc2 then some (.bool false, rest)
      else if b = 0xc3 then some (.bool true, rest)
      else if b = 0xcc then
        match rest with
        | b1 :: r => some (.int b1, r)
        | _ => none
      else if b = 0xcd then
        match rest with
        | b1 :: b2 :: r => some (.int (b1 * 2 ^ 8 + b2), r)
        | _ => none
      else if b = 0xce then
        match rest with
        | b1 :: b2 :: b3 :: b4 :: r =>
            some (.int (b1 * 2 ^ 24 + b2 * 2 ^ 16 + b3 * 2 ^ 8 + b4), r)
        | _ => none
      else if b = 0xcf then
        match rest with
        | b1 :: b2 :: b3 :: b4 :: b5 :: b6 :: b7 :: b8 :: r =>
            some (.int (b1 * 2 ^ 56 + b2 * 2 ^ 48 + b3 * 2 ^ 40 + b4 * 2 ^ 32 +
              b5 * 2 ^ 24 + b6 * 2 ^ 16 + b7 * 2 ^ 8 + b8), r)
        | _ => none
      else if b = 0xd0 then
        match rest with
        | b1 :: r => some (.int (if b1 < 2 ^ 7 then (b1 : Int) else (b1 : Int) - 2 ^ 8), r)
        | _ => none
      else if b = 0xd1 then
        match rest with
        | b1 :: b2 :: r =>
            let n : Int := b1 * 2 ^ 8 + b2
            some (.int (if n < 2 ^ 15 then n else n - 2 ^ 16), r)
        | _ => none
      else if b = 0xd2 then
        match rest with
        | b1 :: b2 :: b3 :: b4 :: r =>
            let n : Int := b1 * 2 ^ 24 + b2 * 2 ^ 16 + b3 * 2 ^ 8 + b4
            some (.int (if n < 2 ^ 31 then n else n - 2 ^ 32), r)
        | _ => none
      else if b = 0xd3 then
        match rest with
        | b1 :: b2 :: b3 :: b4 :: b5 :: b6 :: b7 :: b8 :: r =>
            let n : Int := b1 * 2 ^ 56 + b2 * 2 ^ 48 + b3 * 2 ^ 40 + b4 * 2 ^ 32 +
              b5 * 2 ^ 24 + b6 * 2 ^ 16 + b7 * 2 ^ 8 + b8
            some (.int (if n < 2 ^ 63 then n else n - 2 ^ 64), r)
        | _ => none
      else if b = 0xda then
        match rest with
        | b1 :: b2 :: r =>
            (takeBytes (b1 * 2 ^ 8 + b2) r).map (fun p => (.str p.1, p.2))
        | _ => none
      else if b = 0xdb then
        match rest with
        | b1 :: b2 :: b3 :: b4 :: r =>
            (takeBytes (b1 * 2 ^ 24 + b2 * 2 ^ 16 + b3 * 2 ^ 8 + b4) r).map
              (fun p => (.str p.1, p.2))
        | _ => none
      else if b = 0xdc then
        match rest with
        | b1 :: b2 :: r =>
            (parseList f (b1 * 2 ^ 8 + b2) r).map (fun p => (.arr p.1, p.2))
        | _ => none
      else if b = 0xdd then
        match rest with
        | b1 :: b2 :: b3 :: b4 :: r =>
            (parseList f (b1 * 2 ^ 24 + b2 * 2 ^ 16 + b3 * 2 ^ 8 + b4) r).map
              (fun p => (.arr p.1, p.2))
        | _ => none
      else if b = 0xde then
        match rest with
        | b1 :: b2 :: r =>
            (parsePairs f (b1 * 2 ^ 8 + b2) r).map (fun p => (.map p.1, p.2))
        | _ => none
      else if b = 0xdf then
        match rest with
        | b1 :: b2 :: b3 :: b4 :: r =>
            (parsePairs f (b1 * 2 ^ 24 + b2 * 2 ^ 16 + b3 * 2 ^ 8 + b4) r).map
              (fun p => (.map p.1, p.2))
        | _ => none
      else none

def parseList : Nat → Nat → Bytes → Option (MPList × Bytes)
  | _, 0, bs => some (.nil, bs)
  | 0, _ + 1, _ => none
  | f + 1, n + 1, bs => do
      let (v, bs1) ← parseVal f bs
      let (l, bs2) ← parseList f n bs1
      return (.cons v l, bs2)

def parsePairs : Nat → Nat → Bytes → Option (MPPairs × Bytes)
  | _, 0, bs => some (.nil, bs)
  | 0, _ + 1, _ => none
  | f + 1, n + 1, bs => do
      let (k, bs1) ← parseVal f bs
      let (v, bs2) ← parseVal f bs1
      let (m, bs3) ← parsePairs f n bs2
      return (.cons k v m, bs3)
end

/-- Embeds `util.deserialize`: feed the bytes to the unpacker and unpack
one object, failing on malformed input.  The fuel `2 * length + 1` always
suffices (see the round-trip development below). -/
def deserialize (bs : Bytes) : Except PyErr MPVal :=
  match parseVal (2 * bs.length + 1) bs with
  | some (v, _) => Except.ok v
  | none => Except.error PyErr.corruptPayload

/- Fuel that certainly suffices for the parser on a value: one unit per
parser call along any path, taking the maximum over siblings because
sibling elements are parsed with the same fuel. -/
mutual
def fuelNeed : MPVal → Nat
  | .arr l => 1 + fuelNeedL l
  | .map m => 1 + fuelNeedP m
  | _ => 1

def fuelNeedL : MPList → Nat
  | .nil => 0
  | .cons v tl => 1 + max (fuelNeed v) (fuelNeedL tl)

def fuelNeedP : MPPairs → Nat
  | .nil => 0
  | .cons k v tl => 1 + max (fuelNeed k) (max (fuelNeed v) (fuelNeedP tl))
end

theorem takeBytes_append (s rest : Bytes) : takeBytes s.length (s ++ rest) = some (s, rest) := by
  unfold takeBytes
  rw [if_pos (by simp)]
  rw [List.take_left, List.drop_left]

theorem rt_packInt (i : Int) (bs : Bytes) (f : Nat) (rest : Bytes) (h : packInt i = some bs) :
    parseVal (f + 1) (bs ++ rest) = some (.int i, rest) := by
  simp only [packInt] at h
  split_ifs at h with hpos h1 h2 h3 h4 h5 h6 h7 h8 h9 h10
  · rw [Option.some.injEq] at h; subst h
    simp only [List.cons_append, List.nil_append, parseVal]
    rw [if_pos (show i.toNat < 128 by omega)]
    simp
    omega
  · rw [Option.some.injEq] at h; subst h
    simp [parseVal]
    omega
  · rw [Option.some.injEq] at h; subst h
    simp [parseVal, be2]
    omega
  · rw [Option.some.injEq] at h; subst h
    simp [parseVal, be4]
    omega
  · rw [Option.some.injEq] at h; subst h
    simp [parseVal, be8]
    omega
  · rw [Option.some.injEq] at h; subst h
    have c1 : ¬ ((i + 256).toNat < 128) := by omega
    have c2 : 224 ≤ (i + 256).toNat := by omega
    simp only [List.cons_append, List.nil_append, parseVal]
    rw [if_neg (by omega), if_pos (by omega)]
    simp
    omega
  · rw [Option.some.injEq] at h; subst h
    simp [parseVal]
    split <;> omega
  · rw [Option.some.injEq] at h; subst h
    simp [parseVal, be2]
    split <;> omega
  · rw [Option.some.injEq] at h; subst h
    simp [parseVal, be4]
    split <;> omega
  · rw [Option.some.injEq] at h; subst h
    simp [parseVal, be8]
    split <;> omega

theorem rt_packRaw (s bs : Bytes) (f : Nat) (rest : Bytes) (h : packRaw s = some bs) :
    parseVal (f + 1) (bs ++ rest) = some (.str s, rest) := by
  unfold packRaw at h
  split_ifs at h with h1 h2 h3
  · rw [Option.some.injEq] at h; subst h
    simp only [List.cons_append, parseVal]
    rw [if_neg (by omega), if_neg (by omega), if_neg (by omega), if_neg (by omega),
      if_pos (by omega)]
    rw [show 0xa0 + s.length - 0xa0 = s.length by omega, takeBytes_append]
    rfl
  · rw [Option.some.injEq] at h; subst h
    simp only [List.cons_append, List.append_assoc, be2, parseVal]
    norm_num
    rw [show s.length / 256 % 256 * 256 + s.length % 256 = s.length by omega,
      takeBytes_append]
  · rw [Option.some.injEq] at h; subst h
    simp only [List.cons_append, List.append_assoc, be4, parseVal]
    norm_num
    rw [show s.length / 16777216 % 256 * 16777216 + s.length / 65536 % 256 * 65536 +
        s.length / 256 % 256 * 256 + s.length % 256 = s.length by omega,
      takeBytes_append]

theorem pack_arr_inv (l : MPList) (bs : Bytes) (h : pack (.arr l) = some bs) :
    ∃ hd body, arrHeader (MPList.length l) = some hd ∧ packList l = some body ∧
      bs = hd ++ body := by
  unfold pack at h
  cases hhd : arrHeader (MPList.length l) with
  | none => rw [hhd] at h; simp at h
  | some hd =>
      rw [hhd] at h
      cases hbody : packList l with
      | none => rw [hbody] at h; simp at h
      | some body =>
          rw [hbody] at h
          simp at h
          exact ⟨hd, body, rfl, rfl, h.symm⟩

theorem pack_map_inv (m : MPPairs) (bs : Bytes) (h : pack (.map m) = some bs) :
    ∃ hd body, mapHeader (MPPairs.length m) = some hd ∧ packPairs m = some body ∧
      bs = hd ++ body := by
  unfold pack at h
  cases hhd : mapHeader (MPPairs.length m) with
  | none => rw [hhd] at h; simp at h
  | some hd =>
      rw [hhd] at h
      cases hbody : packPairs m with
      | none => rw [hbody] at h; simp at h
      | some body =>
          rw [hbody] at h
          simp at h
          exact ⟨hd, body, rfl, rfl, h.symm⟩

theorem packList_cons_inv (v : MPVal) (tl : MPList) (bs : Bytes)
    (h : packList (.cons v tl) = some bs) :
    ∃ bv bt, pack v = some bv ∧ packList tl = some bt ∧ bs = bv ++ bt := by
  unfold packList at h
  cases hv : pack v with
  | none => rw [hv] at h; simp at h
  | some bv =>
      rw [hv] at h
      cases ht : packList tl with
      | none => rw [ht] at h; simp at h
      | some bt =>
          rw [ht] at h
          simp at h
          exact ⟨bv, bt, rfl, rfl, h.symm⟩

theorem packPairs_cons_inv (k v : MPVal) (tl : MPPairs) (bs : Bytes)
    (h : packPairs (.cons k v tl) = some bs) :
    ∃ bk bv bt, pack k = some bk ∧ pack v = some bv ∧ packPairs tl = some bt ∧
      bs = bk ++ (bv ++ bt) := by
  unfold packPairs at h
  cases hk : pack k with
  | none => rw [hk] at h; simp at h
  | some bk =>
      rw [hk] at h
      cases hv : pack v with
      | none => rw [hv] at h; simp at h
      | some bv =>
          rw [hv] at h
          cases ht : packPairs tl with
          | none => rw [ht] at h; simp at h
          | some bt =>
              rw [ht] at h
              simp at h
              exact ⟨bk, bv, bt, rfl, rfl, rfl, h.symm⟩

theorem packInt_length (i : Int) (bs : Bytes) (h : packInt i = some bs) : 1 ≤ bs.length := by
  simp only [packInt] at h
  split_ifs at h <;> (rw [Option.some.injEq] at h; subst h; simp [be2, be4, be8])

theorem packRaw_length (s bs : Bytes) (h : packRaw s = some bs) : 1 ≤ bs.length := by
  unfold packRaw at h
  split_ifs at h <;> (rw [Option.some.injEq] at h; subst h; simp [be2, be4])

theorem arrHeader_length (n : Nat) (hd : Bytes) (h : arrHeader n = some hd) : 1 ≤ hd.length := by
  unfold arrHeader at h
  split_ifs at h <;> (rw [Option.some.injEq] at h; subst h; simp [be2, be4])

theorem mapHeader_length (n : Nat) (hd : Bytes) (h : mapHeader n = some hd) : 1 ≤ hd.length := by
  unfold mapHeader at h
  split_ifs at h <;> (rw [Option.some.injEq] at h; subst h; simp [be2, be4])

/- Fuel bounds: a successful encoding is long enough that `2 * length`
fuel covers the parser's needs on it. -/
mutual
theorem packBound_val : ∀ (v : MPVal) (bs : Bytes), pack v = some bs →
    1 ≤ bs.length ∧ fuelNeed v ≤ 2 * bs.length
  | .nil, bs, h => by
      simp only [pack, Option.some.injEq] at h
      subst h
      simp [fuelNeed]
  | .bool b, bs, h => by
      simp only [pack, Option.some.injEq] at h
      subst h
      simp [fuelNeed]
  | .int i, bs, h => by
      simp only [pack] at h
      have hl := packInt_length i bs h
      exact ⟨hl, by simp [fuelNeed]; omega⟩
  | .str s, bs, h => by
      simp only [pack] at h
      have hl := packRaw_length s bs h
      exact ⟨hl, by simp [fuelNeed]; omega⟩
  | .arr l, bs, h => by
      obtain ⟨hd, body, hhd, hbody, rfl⟩ := pack_arr_inv l bs h
      have h1 := packBound_list l body hbody
      have h2 := arrHeader_length _ _ hhd
      refine ⟨by simp; omega, ?_⟩
      simp only [fuelNeed, List.length_append]
      omega
  | .map m, bs, h => by
      obtain ⟨hd, body, hhd, hbody, rfl⟩ := pack_map_inv m bs h
      have h1 := packBound_pairs m body hbody
      have h2 := mapHeader_length _ _ hhd
      refine ⟨by simp; omega, ?_⟩
      simp only [fuelNeed, List.length_append]
      omega

theorem packBound_list : ∀ (l : MPList) (bs : Bytes), packList l = some bs →
    fuelNeedL l ≤ 2 * bs.length + 1
  | .nil, bs, h => by
      simp only [packList, Option.some.injEq] at h
      subst h
      simp [fuelNeedL]
  | .cons v tl, bs, h => by
      obtain ⟨bv, bt, hv, ht, rfl⟩ := packList_cons_inv v tl bs h
      have h1 := packBound_val v bv hv
      have h2 := packBound_list tl bt ht
      simp only [fuelNeedL, List.length_append]
      omega

theorem packBound_pairs : ∀ (m : MPPairs) (bs : Bytes), packPairs m = some bs →
    fuelNeedP m ≤ 2 * bs.length + 1
  | .nil, bs, h => by
      simp only [packPairs, Option.some.injEq] at h
      subst h
      simp [fuelNeedP]
  | .cons k v tl, bs, h => by
      obtain ⟨bk, bv, bt, hk, hv, ht, rfl⟩ := packPairs_cons_inv k v tl bs h
      have h1 := packBound_val k bk hk
      have h2 := packBound_val v bv hv
      have h3 := packBound_pairs tl bt ht
      simp only [fuelNeedP, List.length_append]
      omega
end

theorem parseList_zero (f : Nat) (bs : Bytes) : parseList f 0 bs = some (.nil, bs) := by
  cases f <;> rfl

theorem parseList_succ (g n : Nat) (bs : Bytes) : parseList (g + 1) (n + 1) bs = (do
    let (v, bs1) ← parseVal g bs
    let (l, bs2) ← parseList g n bs1
    return (.cons v l, bs2)) := rfl

theorem parsePairs_zero (f : Nat) (bs : Bytes) : parsePairs f 0 bs = some (.nil, bs) := by
  cases f <;> rfl

theorem parsePairs_succ (g n : Nat) (bs : Bytes) : parsePairs (g + 1) (n + 1) bs = (do
    let (k, bs1) ← parseVal g bs
    let (v, bs2) ← parseVal g bs1
    let (m, bs3) ← parsePairs g n bs2
    return (.cons k v m, bs3)) := rfl

/- Round trip: parsing a successful encoding (with enough fuel) returns the
original value and leaves trailing bytes untouched. -/
set_option maxHeartbeats 2000000 in
mutual
theorem rt_val : ∀ (v : MPVal) (bs : Bytes), pack v = some bs → ∀ (f : Nat),
    fuelNeed v ≤ f → ∀ (rest : Bytes), parseVal f (bs ++ rest) = some (v, rest)
  | .nil, bs, h => by
      intro f hf rest
      obtain ⟨g, rfl⟩ : ∃ g, f = g + 1 := ⟨f - 1, by simp [fuelNeed] at hf; omega⟩
      simp only [pack, Option.some.injEq] at h
      subst h
      simp [parseVal]
  | .bool b, bs, h => by
      intro f hf rest
      obtain ⟨g, rfl⟩ : ∃ g, f = g + 1 := ⟨f - 1, by simp [fuelNeed] at hf; omega⟩
      simp only [pack, Option.some.injEq] at h
      subst h
      cases b <;> simp [parseVal]
  | .int i, bs, h => by
      intro f hf rest
      obtain ⟨g, rfl⟩ : ∃ g, f = g + 1 := ⟨f - 1, by simp [fuelNeed] at hf; omega⟩
      simp only [pack] at h
      exact rt_packInt i bs g rest h
  | .str s, bs, h => by
      intro f hf rest
      obtain ⟨g, rfl⟩ : ∃ g, f = g + 1 := ⟨f - 1, by simp [fuelNeed] at hf; omega⟩
      simp only [pack] at h
      exact rt_packRaw s bs g rest h
  | .arr l, bs, h => by
      intro f hf rest
      obtain ⟨hd, body, hhd, hbody, rfl⟩ := pack_arr_inv l bs h
      obtain ⟨g, rfl⟩ : ∃ g, f = g + 1 := ⟨f - 1, by simp [fuelNeed] at hf; omega⟩
      have hfl : fuelNeedL l ≤ g := by simp [fuelNeed] at hf; omega
      unfold arrHeader at hhd
      split_ifs at hhd with hh1 hh2 hh3
      · rw [Option.some.injEq] at hhd; subst hhd
        simp only [List.cons_append, List.nil_append, List.append_assoc, parseVal]
        rw [if_neg (by omega), if_neg (by omega), if_neg (by omega), if_pos (by omega)]
        rw [show 0x90 + MPList.length l - 0x90 = MPList.length l by omega]
        rw [rt_list l body hbody g hfl rest]
        try rfl
      · rw [Option.some.injEq] at hhd; subst hhd
        simp only [be2, List.cons_append, List.append_assoc, parseVal]
        norm_num
        rw [show MPList.length l / 256 % 256 * 256 + MPList.length l % 256 =
          MPList.length l by omega]
        rw [rt_list l body hbody g hfl rest]
        try rfl
      · rw [Option.some.injEq] at hhd; subst hhd
        simp only [be4, List.cons_append, List.append_assoc, parseVal]
        norm_num
        rw [show MPList.length l / 16777216 % 256 * 16777216 +
          MPList.length l / 65536 % 256 * 65536 + MPList.length l / 256 % 256 * 256 +
          MPList.length l % 256 = MPList.length l by omega]
        rw [rt_list l body hbody g hfl rest]
        try rfl
  | .map m, bs, h => by
      intro f hf rest
      obtain ⟨hd, body, hhd, hbody, rfl⟩ := pack_map_inv m bs h
      obtain ⟨g, rfl⟩ : ∃ g, f = g + 1 := ⟨f - 1, by simp [fuelNeed] at hf; omega⟩
      have hfp : fuelNeedP m ≤ g := by simp [fuelNeed] at hf; omega
      unfold mapHeader at hhd
      split_ifs at hhd with hh1 hh2 hh3
      · rw [Option.some.injEq] at hhd; subst hhd
        simp only [List.cons_append, List.nil_append, List.append_assoc, parseVal]
        rw [if_neg (by omega), if_neg (by omega), if_pos (by omega)]
        rw [show 0x80 + MPPairs.length m - 0x80 = MPPairs.length m by omega]
        rw [rt_pairs m body hbody g hfp rest]
        try rfl
      · rw [Option.some.injEq] at hhd; subst hhd
        simp only [be2, List.cons_append, List.append_assoc, parseVal]
        norm_num
        rw [show MPPairs.length m / 256 % 256 * 256 + MPPairs.length m % 256 =
          MPPairs.length m by omega]
        rw [rt_pairs m body hbody g hfp rest]
        try rfl
      · rw [Option.some.injEq] at hhd; subst hhd
        simp only [be4, List.cons_append, List.append_assoc, parseVal]
        norm_num
        rw [show MPPairs.length m / 16777216 % 256 * 16777216 +
          MPPairs.length m / 65536 % 256 * 65536 + MPPairs.length m / 256 % 256 * 256 +
          MPPairs.length m % 256 = MPPairs.length m by omega]
        rw [rt_pairs m body hbody g hfp rest]
        try rfl

theorem rt_list : ∀ (l : MPList) (bs : Bytes), packList l = some bs → ∀ (f : Nat),
    fuelNeedL l ≤ f → ∀ (rest : Bytes),
    parseList f (MPList.length l) (bs ++ rest) = some (l, rest)
  | .nil, bs, h => by
      intro f hf rest
      simp only [packList, Option.some.injEq] at h
      subst h
      exact parseList_zero f rest
  | .cons v tl, bs, h => by
      intro f hf rest
      obtain ⟨bv, bt, hv, ht, rfl⟩ := packList_cons_inv v tl bs h
      obtain ⟨g, rfl⟩ : ∃ g, f = g + 1 := ⟨f - 1, by simp [fuelNeedL] at hf; omega⟩
      have h1 : fuelNeed v ≤ g := by simp [fuelNeedL] at hf; omega
      have h2 : fuelNeedL tl ≤ g := by simp [fuelNeedL] at hf; omega
      rw [show MPList.length (MPList.cons v tl) = MPList.length tl + 1 from rfl]
      simp only [List.append_assoc]
      rw [parseList_succ]
      simp [rt_val v bv hv g h1 (bt ++ rest), rt_list tl bt ht g h2 rest]

theorem rt_pairs : ∀ (m : MPPairs) (bs : Bytes), packPairs m = some bs → ∀ (f : Nat),
    fuelNeedP m ≤ f → ∀ (rest : Bytes),
    parsePairs f (MPPairs.length m) (bs ++ rest) = some (m, rest)
  | .nil, bs, h => by
      intro f hf rest
      simp only [packPairs, Option.some.injEq] at h
      subst h
      exact parsePairs_zero f rest
  | .cons k v tl, bs, h => by
      intro f hf rest
      obtain ⟨bk, bv, bt, hk, hv, ht, rfl⟩ := packPairs_cons_inv k v tl bs h
      obtain ⟨g, rfl⟩ : ∃ g, f = g + 1 := ⟨f - 1, by simp [fuelNeedP] at hf; omega⟩
      have h1 : fuelNeed k ≤ g := by simp [fuelNeedP] at hf; omega
      have h2 : fuelNeed v ≤ g := by simp [fuelNeedP] at hf; omega
      have h3 : fuelNeedP tl ≤ g := by simp [fuelNeedP] at hf; omega
      rw [show MPPairs.length (MPPairs.cons k v tl) = MPPairs.length tl + 1 from rfl]
      simp only [List.append_assoc]
      rw [parsePairs_succ]
      simp [rt_val k bk hk g h1 (bv ++ (bt ++ rest)), rt_val v bv hv g h2 (bt ++ rest),
        rt_pairs tl bt ht g h3 rest]
end

/-- Shared round-trip result: decoding a successful encoding recovers the
value.  Used by the codec claim and by the reload argument for sessions. -/
theorem deserialize_serialize (v : MPVal) (bs : Bytes) (h : serialize v = some bs) :
    deserialize bs = Except.ok v := by
  have hb := packBound_val v bs h
  have hrt := rt_val v bs h (2 * bs.length + 1) (by omega) []
  rw [List.append_nil] at hrt
  unfold deserialize
  rw [hrt]

/-- C8: for every payload built from the supported value shapes (strings,
integers, booleans, nil, nested lists and mappings), decoding the encoding
returns the payload: whenever `serialize` succeeds on a string-keyed
mapping (it fails only on integers outside the 64-bit wire ranges, where
the original packer raises), `deserialize` inverts it. -/
theorem deserialize_serialize_payload (p : MPPairs) (bs : Bytes)
    (h : serialize (.map p) = some bs) : deserialize bs = Except.ok (.map p) :=
  deserialize_serialize (.map p) bs h

/-- C8 witness: the codec round trip on the concrete payload
`{"a": [1, "hi", false], "n": -300}`. -/
theorem deserialize_serialize_payload_witness :
    serialize (.map (.cons (.str [97])
        (.arr (.cons (.int 1) (.cons (.str [104, 105]) (.cons (.bool false) .nil))))
        (.cons (.str [110]) (.int (-300)) .nil))) =
      some [130, 161, 97, 147, 1, 162, 104, 105, 194, 161, 110, 209, 254, 212] ∧
    deserialize [130, 161, 97, 147, 1, 162, 104, 105, 194, 161, 110, 209, 254, 212] =
      Except.ok (.map (.cons (.str [97])
        (.arr (.cons (.int 1) (.cons (.str [104, 105]) (.cons (.bool false) .nil))))
        (.cons (.str [110]) (.int (-300)) .nil))) :=
  ⟨by decide, deserialize_serialize_payload _ _ (by decide)⟩

/-- The Redis store: an association list from keys to the stored value and
an optional remaining TTL (`none` = no expiration set).  Keys are unique
by construction of the operations below, which mirror the `StrictRedis`
commands the sessions code calls. -/
abbrev Store := List (Bytes × Bytes × Option Nat)

/-- Redis `GET`: the stored value at a key, if present. -/
def redisGet (st : Store) (k : Bytes) : Option Bytes :=
  match st with
  | [] => none
  | e :: rest => if e.1 = k then some e.2.1 else redisGet rest k

/-- Redis `EXISTS`. -/
def redisExists (st : Store) (k : Bytes) : Bool :=
  match st with
  | [] => false
  | e :: rest => if e.1 = k then true else redisExists rest k

/-- Redis `SET`: store a value and clear any TTL on the key. -/
def redisSet (st : Store) (k v : Bytes) : Store :=
  match st with
  | [] => [(k, v, none)]
  | e :: rest => if e.1 = k then (k, v, none) :: rest else e :: redisSet rest k v

/-- Redis `SETEX`: store a value with a TTL of `t` seconds. -/
def redisSetex (st : Store) (k : Bytes) (t : Nat) (v : Bytes) : Store :=
  match st with
  | [] => [(k, v, some t)]
  | e :: rest => if e.1 = k then (k, v, some t) :: rest else e :: redisSetex rest k t v

/-- Redis `SETNX`: store the value without TTL only when the key is absent;
reports whether the write happened. -/
def redisSetnx (st : Store) (k v : Bytes) : Bool × Store :=
  if redisExists st k then (false, st) else (true, st ++ [(k, v, none)])

/-- Redis `EXPIRE`: reset the TTL of an existing key (no effect on a
missing key; the command's boolean reply is unused by the sessions code). -/
def redisExpire (st : Store) (k : Bytes) (t : Nat) : Store :=
  match st with
  | [] => []
  | e :: rest => if e.1 = k then (e.1, e.2.1, some t) :: rest else e :: redisExpire rest k t

/-- Remaining TTL recorded for a key (model observer, for stating theorems). -/
def ttlOf (st : Store) (k : Bytes) : Option Nat :=
  match st with
  | [] => none
  | e :: rest => if e.1 = k then e.2.2 else ttlOf rest k

theorem redisGet_setex_self (st : Store) (k : Bytes) (t : Nat) (v : Bytes) :
    redisGet (redisSetex st k t v) k = some v := by
  induction st with
  | nil => simp [redisSetex, redisGet]
  | cons e rest ih =>
      by_cases h : e.1 = k
      · simp [redisSetex, redisGet, h]
      · simp [redisSetex, redisGet, h, ih]

theorem ttlOf_setex_self (st : Store) (k : Bytes) (t : Nat) (v : Bytes) :
    ttlOf (redisSetex st k t v) k = some t := by
  induction st with
  | nil => simp [redisSetex, ttlOf]
  | cons e rest ih =>
      by_cases h : e.1 = k
      · simp [redisSetex, ttlOf, h]
      · simp [redisSetex, ttlOf, h, ih]

theorem redisGet_set_self (st : Store) (k v : Bytes) :
    redisGet (redisSet st k v) k = some v := by
  induction st with
  | nil => simp [redisSet, redisGet]
  | cons e rest ih =>
      by_cases h : e.1 = k
      · simp [redisSet, redisGet, h]
      · simp [redisSet, redisGet, h, ih]

theorem ttlOf_set_self (st : Store) (k v : Bytes) :
    ttlOf (redisSet st k v) k = none := by
  induction st with
  | nil => simp [redisSet, ttlOf]
  | cons e rest ih =>
      by_cases h : e.1 = k
      · simp [redisSet, ttlOf, h]
      · simp [redisSet, ttlOf, h, ih]

theorem redisGet_expire (st : Store) (k : Bytes) (t : Nat) (k2 : Bytes) :
    redisGet (redisExpire st k t) k2 = redisGet st k2 := by
  induction st with
  | nil => simp [redisExpire]
  | cons e rest ih =>
      by_cases h : e.1 = k
      · by_cases h2 : e.1 = k2 <;> simp [redisExpire, redisGet, h, h2]
      · by_cases h2 : e.1 = k2
        · have h3 : ¬ (k2 = k) := by rw [← h2]; exact h
          simp [redisExpire, redisGet, h, h2, h3]
        · simp [redisExpire, redisGet, h, h2, ih]

theorem ttlOf_expire_self (st : Store) (k : Bytes) (t : Nat)
    (hex : redisExists st k = true) : ttlOf (redisExpire st k t) k = some t := by
  induction st with
  | nil => simp [redisExists] at hex
  | cons e rest ih =>
      by_cases h : e.1 = k
      · simp [redisExpire, ttlOf, h]
      · simp [redisExists, h] at hex
        simp [redisExpire, ttlOf, h, ih hex]

theorem ttlOf_expire_other (st : Store) (k : Bytes) (t : Nat) (k2 : Bytes)
    (hne : k2 ≠ k) : ttlOf (redisExpire st k t) k2 = ttlOf st k2 := by
  induction st with
  | nil => simp [redisExpire]
  | cons e rest ih =>
      by_cases h : e.1 = k
      · have h4 : ¬ (k = k2) := fun hh => hne hh.symm
        have h2 : e.1 ≠ k2 := by rw [h]; exact h4
        simp [redisExpire, ttlOf, h, h2, h4]
      · by_cases h2 : e.1 = k2
        · have h3 : ¬ (k2 = k) := hne
          simp [redisExpire, ttlOf, h, h2, h3]
        · simp [redisExpire, ttlOf, h, h2, ih]

/-- Embeds the module-level `_empty_session = serialize({})` of `util.py`
(the packer always succeeds on the empty mapping, so `getD` is inert). -/
def _empty_session : Bytes := (serialize (.map .nil)).getD []

/-- Python subscripting `b[i]` where `b` is a boolean: booleans are not
subscriptable, so this raises `TypeError`.  `util.new_session_id` does
exactly this to the boolean returned by `StrictRedis.setnx`. -/
def boolSubscript (b : Bool) (i : Nat) : Except PyErr Bool :=
  Except.error PyErr.typeError

/-- Embeds `util.new_session_id`.  The `while 1` loop draws random 20-byte
ids (base32-encoded); the stream of draws is made explicit as the
`candidates` list (exhaustion of the list stands for the unbounded loop
never succeeding).  Mirrors the source faithfully, including `val[0]`
applied to the boolean result of `setnx`. -/
def new_session_id (candidates : List Bytes) (st : Store) (timeout : Nat) :
    Except PyErr (Bytes × Store) :=
  match candidates with
  | [] => Except.error PyErr.noRandomness
  | session_id :: more =>
      let r := redisSetnx st session_id _empty_session
      match boolSubscript r.1 0 with
      | .error e => .error e
      | .ok v =>
          if v then
            if timeout ≠ 0 then .ok (session_id, redisExpire r.2 session_id timeout)
            else .ok (session_id, r.2)
          else new_session_id more r.2 timeout

/-- Embeds `deserialize` applied to the result of `redis.get`: a missing
key makes `get` return `None`, and feeding `None` to the unpacker raises a
`TypeError` (`None` is not a byte string). -/
def deserializeOpt : Option Bytes → Except PyErr MPVal
  | none => Except.error PyErr.typeError
  | some bs => deserialize bs

/-- Embeds `RedisSession.from_redis`: fetch the session's blob and
deserialize it. -/
def from_redis (st : Store) (session_id : Bytes) : Except PyErr MPVal :=
  deserializeOpt (redisGet st session_id)

/-- The reserved sentinel key `'on'` (bytes of `"on"`) that marks
indefinite mode inside the payload itself. -/
def keyOn : MPVal := .str [111, 110]

/-- First-match lookup, the dictionary access of Python dicts (keys are
unique in any dict the interpreter can build). -/
def MPPairs.lookup : MPPairs → MPVal → Option MPVal
  | .nil, _ => none
  | .cons k v tl, key => if k = key then some v else tl.lookup key

/-- Python `key in dict`. -/
def MPPairs.mem (m : MPPairs) (key : MPVal) : Bool :=
  (m.lookup key).isSome

/-- The session code uses the deserialized object as a dict (`'on' in
self.managed_dict`, item access, ...); a stored non-mapping blob surfaces
as a `TypeError` at that point. -/
def asDict : MPVal → Except PyErr MPPairs
  | .map m => Except.ok m
  | _ => Except.error PyErr.typeError

/-- The in-memory session state of `RedisSession` (`created` and the
cookie-deletion callback carry no session semantics and are omitted;
`v_new` is the `_v_new` attribute, absent-as-`false`). -/
structure RedisSession where
  session_id : Bytes
  managed_dict : MPPairs
  default_timeout : Nat
  timeout : Nat
  v_new : Bool
  deriving DecidableEq

/-- Embeds `RedisSession.__init__`: load the payload via `from_redis`,
remember the configured timeout as the default, and start with timeout 0
exactly when the sentinel key `'on'` is in the payload. -/
def RedisSession.init (st : Store) (session_id : Bytes) (timeout : Nat) :
    Except PyErr RedisSession :=
  match from_redis st session_id with
  | .error e => .error e
  | .ok v =>
      match asDict v with
      | .error e => .error e
      | .ok d =>
          .ok { session_id := session_id, managed_dict := d,
                default_timeout := timeout,
                timeout := if d.mem keyOn then 0 else timeout,
                v_new := false }

/-- Embeds the `new` property: `getattr(self, '_v_new', False)`. -/
def RedisSession.isNew (s : RedisSession) : Bool := s.v_new

/-- What the per-request factory produces: the session, the store as left
behind, and the signed cookie value scheduled for the response (if any). -/
structure FactoryResult where
  session : RedisSession
  store : Store
  setCookie : Option Bytes
  deriving DecidableEq

/-- Embeds the `factory` closure of `RedisSessionFactory`: try to unsign
the request cookie (a `ValueError` leaves `session_id = None`); when a
non-empty id was recovered and exists in the store, load that session; in
every other case run `new_session_id`, schedule a signed cookie via
`add_cookie` (which, as written, skips the cookie when
`cookie_on_exception` is false and the request has no exception), build
the session and mark it `_v_new`.  `requestException` models
`request.exception is not None`. -/
def factory (digest : Bytes → Bytes → Bytes) (secret : Bytes) (candidates : List Bytes)
    (timeout : Nat) (cookie_on_exception requestException : Bool)
    (st : Store) (cookieval : Option Bytes) : Except PyErr FactoryResult :=
  let add_cookie : Bytes → Option Bytes := fun new_id =>
    if !cookie_on_exception && !requestException then none
    else some (sign_session_id digest new_id secret)
  let session_id : Option Bytes :=
    match cookieval with
    | none => none
    | some cv =>
        match unsign_session_id digest cv secret with
        | .ok sid => some sid
        | .error _ => none
  let valid : Bool :=
    match session_id with
    | some sid => !sid.isEmpty && redisExists st sid
    | none => false
  if valid then
    match session_id with
    | some sid =>
        match RedisSession.init st sid timeout with
        | .error e => .error e
        | .ok s => .ok ⟨s, st, none⟩
    | none => .error PyErr.typeError
  else
    match new_session_id candidates st timeout with
    | .error e => .error e
    | .ok (new_id, st2) =>
        match RedisSession.init st2 new_id timeout with
        | .error e => .error e
        | .ok s => .ok ⟨{ s with v_new := true }, st2, add_cookie new_id⟩

/-- C4: whenever the allocation loop draws a candidate id, `val[0]` is
evaluated on the boolean that `setnx` returned, so `new_session_id`
raises `TypeError` on every call instead of returning a fresh id — for
any store state and any timeout. -/
theorem new_session_id_raises (c : Bytes) (more : List Bytes) (st : Store) (t : Nat) :
    new_session_id (c :: more) st t = Except.error PyErr.typeError := rfl

/-- C3 counterexample: loading a session whose id is absent from the store
(here: any id against the empty store) raises instead of yielding an empty
payload — `redis.get` returns `None` and deserializing `None` is a
`TypeError`. -/
theorem from_redis_miss_counterexample :
    from_redis [] [65] = Except.error PyErr.typeError := rfl

/-- C3 (amended): for every session id whose key is absent from the store,
loading the session raises a `TypeError` (deserialize is applied to the
absent value); callers do get an error on a store miss — the factory
avoids the miss only because it checks `exists` or has just created the
key. -/
theorem from_redis_miss_raises (st : Store) (session_id : Bytes)
    (h : redisGet st session_id = none) :
    from_redis st session_id = Except.error PyErr.typeError := by
  unfold from_redis
  rw [h]
  rfl

/-- C3 witness: the amended statement evaluated at the empty store. -/
theorem from_redis_miss_raises_witness :
    redisGet [] [66] = none ∧ from_redis [] [66] = Except.error PyErr.typeError :=
  ⟨rfl, from_redis_miss_raises [] [66] rfl⟩

/-- C2: on the new-session path (here: a request without a cookie) the
factory does not return a fresh session with a scheduled cookie as the
spec describes — it propagates the `TypeError` that `new_session_id`
raises from subscripting the boolean `setnx` result. -/
theorem factory_new_session_path_raises (digest : Bytes → Bytes → Bytes)
    (secret : Bytes) (c : Bytes) (more : List Bytes) (t : Nat)
    (coe rexc : Bool) (st : Store) :
    factory digest secret (c :: more) t coe rexc st none =
      Except.error PyErr.typeError := rfl

/-- Python `d[k] = v`: replace the value of an existing key in place,
otherwise append the new entry. -/
def MPPairs.set : MPPairs → MPVal → MPVal → MPPairs
  | .nil, key, val => .cons key val .nil
  | .cons k v tl, key, val =>
      if k = key then .cons key val tl else .cons k v (tl.set key val)

/-- Python `del d[k]` (callers check presence): drop the entry. -/
def MPPairs.erase : MPPairs → MPVal → MPPairs
  | .nil, _ => .nil
  | .cons k v tl, key => if k = key then tl else .cons k v (tl.erase key)

/-- Keys, in insertion order. -/
def MPPairs.keysList : MPPairs → List MPVal
  | .nil => []
  | .cons k _ tl => k :: tl.keysList

/-- Values, in insertion order. -/
def MPPairs.valuesList : MPPairs → List MPVal
  | .nil => []
  | .cons _ v tl => v :: tl.valuesList

/-- Items, in insertion order. -/
def MPPairs.itemsList : MPPairs → List (MPVal × MPVal)
  | .nil => []
  | .cons k v tl => (k, v) :: tl.itemsList

/-- Python `d.update(other)`: set every entry of `other` in order. -/
def MPPairs.updateWith : MPPairs → MPPairs → MPPairs
  | m, .nil => m
  | m, .cons k v tl => MPPairs.updateWith (m.set k v) tl

/-- The dict invariant every Python dict satisfies: keys are pairwise
distinct.  Stated explicitly because the model's association lists admit
duplicates that no real session can contain. -/
def MPPairs.nodupKeys : MPPairs → Bool
  | .nil => true
  | .cons k _ tl => !tl.mem k && tl.nodupKeys

/-- Embeds the `@persist` decorator's trailing write: serialize the
working dict and `setex` it under the session's id when the timeout is
nonzero, else `set` it without TTL. -/
def persistStep (s : RedisSession) (st : Store) : Except PyErr Store :=
  match serialize (.map s.managed_dict) with
  | none => Except.error PyErr.overflowError
  | some bs =>
      Except.ok (if s.timeout ≠ 0 then redisSetex st s.session_id s.timeout bs
                 else redisSet st s.session_id bs)

/-- Embeds `util.persist`: run the wrapped method, then persist the
session copy (reading the timeout after the wrapped call, as the
decorator does). -/
def persistWrap {α : Type} (inner : RedisSession → Except PyErr (α × RedisSession))
    (s : RedisSession) (st : Store) : Except PyErr (α × RedisSession × Store) :=
  match inner s with
  | .error e => .error e
  | .ok (r, s2) =>
      match persistStep s2 st with
      | .error e => .error e
      | .ok st2 => .ok (r, s2, st2)

/-- Embeds `util.refresh`: run the wrapped method, then reset the key's
expiration when the session's timeout is nonzero. -/
def refreshWrap {α : Type} (inner : RedisSession → Except PyErr (α × RedisSession))
    (s : RedisSession) (st : Store) : Except PyErr (α × RedisSession × Store) :=
  match inner s with
  | .error e => .error e
  | .ok (r, s2) =>
      .ok (r, s2, if s2.timeout ≠ 0 then redisExpire st s2.session_id s2.timeout else st)

/-- Embeds `RedisSession.__setitem__` (`@persist`). -/
def RedisSession.setitem (key value : MPVal) :
    RedisSession → Store → Except PyErr (Unit × RedisSession × Store) :=
  persistWrap (fun s =>
    .ok ((), { s with managed_dict := s.managed_dict.set key value }))

/-- Embeds `RedisSession.__delitem__` (`@persist`); a missing key raises
`KeyError` before any write. -/
def RedisSession.delitem (key : MPVal) :
    RedisSession → Store → Except PyErr (Unit × RedisSession × Store) :=
  persistWrap (fun s =>
    match s.managed_dict.lookup key with
    | none => .error PyErr.keyError
    | some _ => .ok ((), { s with managed_dict := s.managed_dict.erase key }))

/-- Embeds `RedisSession.setdefault` (`@persist`). -/
def RedisSession.setdefault (key default : MPVal) :
    RedisSession → Store → Except PyErr (MPVal × RedisSession × Store) :=
  persistWrap (fun s =>
    match s.managed_dict.lookup key with
    | some v => .ok (v, s)
    | none => .ok (default, { s with managed_dict := s.managed_dict.set key default }))

/-- Embeds `RedisSession.clear` (`@persist`). -/
def RedisSession.clear :
    RedisSession → Store → Except PyErr (Unit × RedisSession × Store) :=
  persistWrap (fun s => .ok ((), { s with managed_dict := .nil }))

/-- Embeds `RedisSession.pop` (`@persist`); the source always passes a
default, so a missing key returns it without error. -/
def RedisSession.pop (key default : MPVal) :
    RedisSession → Store → Except PyErr (MPVal × RedisSession × Store) :=
  persistWrap (fun s =>
    match s.managed_dict.lookup key with
    | some v => .ok (v, { s with managed_dict := s.managed_dict.erase key })
    | none => .ok (default, s))

/-- Embeds `RedisSession.update` (`@persist`). -/
def RedisSession.update (other : MPPairs) :
    RedisSession → Store → Except PyErr (Unit × RedisSession × Store) :=
  persistWrap (fun s =>
    .ok ((), { s with managed_dict := s.managed_dict.updateWith other }))

/-- Embeds `RedisSession.popitem` (`@persist`); the model pops the first
entry (CPython 2 pops an unspecified one), raising `KeyError` when the
dict is empty. -/
def RedisSession.popitem :
    RedisSession → Store → Except PyErr ((MPVal × MPVal) × RedisSession × Store) :=
  persistWrap (fun s =>
    match s.managed_dict with
    | .nil => .error PyErr.keyError
    | .cons k v tl => .ok ((k, v), { s with managed_dict := tl }))

/-- Embeds `RedisSession.changed` (`@persist`): no in-memory change, the
decorator still writes. -/
def RedisSession.changed :
    RedisSession → Store → Except PyErr (Unit × RedisSession × Store) :=
  persistWrap (fun s => .ok ((), s))

/-- Embeds `RedisSession.set_timeout` (`@persist`): restore the default
timeout and drop the sentinel key when present. -/
def RedisSession.set_timeout :
    RedisSession → Store → Except PyErr (Unit × RedisSession × Store) :=
  persistWrap (fun s =>
    let s1 := { s with timeout := s.default_timeout }
    if s1.managed_dict.mem keyOn then
      .ok ((), { s1 with managed_dict := s1.managed_dict.erase keyOn })
    else .ok ((), s1))

/-- Embeds `RedisSession.dont_expire` (`@persist`): timeout 0 and the
sentinel key `'on' = True` written into the payload. -/
def RedisSession.dont_expire :
    RedisSession → Store → Except PyErr (Unit × RedisSession × Store) :=
  persistWrap (fun s =>
    .ok ((), { s with
               timeout := 0
               managed_dict := s.managed_dict.set keyOn (.bool true) }))

/-- Embeds `RedisSession.__getitem__` (`@refresh`). -/
def RedisSession.getitem (key : MPVal) :
    RedisSession → Store → Except PyErr (MPVal × RedisSession × Store) :=
  refreshWrap (fun s =>
    match s.managed_dict.lookup key with
    | some v => .ok (v, s)
    | none => .error PyErr.keyError)

/-- Embeds `RedisSession.__contains__` (`@refresh`). -/
def RedisSession.containsKey (key : MPVal) :
    RedisSession → Store → Except PyErr (Bool × RedisSession × Store) :=
  refreshWrap (fun s => .ok (s.managed_dict.mem key, s))

/-- Embeds `RedisSession.keys` (`@refresh`). -/
def RedisSession.keys :
    RedisSession → Store → Except PyErr (List MPVal × RedisSession × Store) :=
  refreshWrap (fun s => .ok (s.managed_dict.keysList, s))

/-- Embeds `RedisSession.items` (`@refresh`). -/
def RedisSession.items :
    RedisSession → Store → Except PyErr (List (MPVal × MPVal) × RedisSession × Store) :=
  refreshWrap (fun s => .ok (s.managed_dict.itemsList, s))

/-- Embeds `RedisSession.get` (`@refresh`). -/
def RedisSession.get (key default : MPVal) :
    RedisSession → Store → Except PyErr (MPVal × RedisSession × Store) :=
  refreshWrap (fun s => .ok ((s.managed_dict.lookup key).getD default, s))

/-- Embeds `RedisSession.__iter__` (`@refresh`): an iterator over keys. -/
def RedisSession.iterKeys :
    RedisSession → Store → Except PyErr (List MPVal × RedisSession × Store) :=
  refreshWrap (fun s => .ok (s.managed_dict.keysList, s))

/-- Embeds `RedisSession.has_key` (`@refresh`). -/
def RedisSession.has_key (key : MPVal) :
    RedisSession → Store → Except PyErr (Bool × RedisSession × Store) :=
  refreshWrap (fun s => .ok (s.managed_dict.mem key, s))

/-- Embeds `RedisSession.values` (`@refresh`). -/
def RedisSession.values :
    RedisSession → Store → Except PyErr (List MPVal × RedisSession × Store) :=
  refreshWrap (fun s => .ok (s.managed_dict.valuesList, s))

/-- Embeds `RedisSession.itervalues` (`@refresh`). -/
def RedisSession.itervalues :
    RedisSession → Store → Except PyErr (List MPVal × RedisSession × Store) :=
  refreshWrap (fun s => .ok (s.managed_dict.valuesList, s))

/-- Embeds `RedisSession.iteritems` (`@refresh`). -/
def RedisSession.iteritems :
    RedisSession → Store → Except PyErr (List (MPVal × MPVal) × RedisSession × Store) :=
  refreshWrap (fun s => .ok (s.managed_dict.itemsList, s))

/-- Embeds `RedisSession.iterkeys` (`@refresh`). -/
def RedisSession.iterkeys :
    RedisSession → Store → Except PyErr (List MPVal × RedisSession × Store) :=
  refreshWrap (fun s => .ok (s.managed_dict.keysList, s))

/-- The mutating (`@persist`-decorated) operations of `RedisSession`. -/
inductive MutatingOp : Type where
  | setitem (key value : MPVal) : MutatingOp
  | delitem (key : MPVal) : MutatingOp
  | setdefault (key default : MPVal) : MutatingOp
  | clear : MutatingOp
  | pop (key default : MPVal) : MutatingOp
  | update (other : MPPairs) : MutatingOp
  | popitem : MutatingOp
  | changed : MutatingOp
  | set_timeout : MutatingOp
  | dont_expire : MutatingOp

/-- Run a mutating operation, keeping session and store (the operation's
return value is dropped: the claims below are about the state). -/
def applyMutating : MutatingOp → RedisSession → Store →
    Except PyErr (RedisSession × Store)
  | .setitem k v, s, st => (RedisSession.setitem k v s st).map (fun r => r.2)
  | .delitem k, s, st => (RedisSession.delitem k s st).map (fun r => r.2)
  | .setdefault k d, s, st => (RedisSession.setdefault k d s st).map (fun r => r.2)
  | .clear, s, st => (RedisSession.clear s st).map (fun r => r.2)
  | .pop k d, s, st => (RedisSession.pop k d s st).map (fun r => r.2)
  | .update other, s, st => (RedisSession.update other s st).map (fun r => r.2)
  | .popitem, s, st => (RedisSession.popitem s st).map (fun r => r.2)
  | .changed, s, st => (RedisSession.changed s st).map (fun r => r.2)
  | .set_timeout, s, st => (RedisSession.set_timeout s st).map (fun r => r.2)
  | .dont_expire, s, st => (RedisSession.dont_expire s st).map (fun r => r.2)

/-- The read-only (`@refresh`-decorated) operations of `RedisSession`. -/
inductive ReadOp : Type where
  | getitem (key : MPVal) : ReadOp
  | contains (key : MPVal) : ReadOp
  | keys : ReadOp
  | items : ReadOp
  | get (key default : MPVal) : ReadOp
  | iter : ReadOp
  | has_key (key : MPVal) : ReadOp
  | values : ReadOp
  | itervalues : ReadOp
  | iteritems : ReadOp
  | iterkeys : ReadOp

/-- Run a read-only operation, keeping session and store. -/
def applyRead : ReadOp → RedisSession → Store → Except PyErr (RedisSession × Store)
  | .getitem k, s, st => (RedisSession.getitem k s st).map (fun r => r.2)
  | .contains k, s, st => (RedisSession.containsKey k s st).map (fun r => r.2)
  | .keys, s, st => (RedisSession.keys s st).map (fun r => r.2)
  | .items, s, st => (RedisSession.items s st).map (fun r => r.2)
  | .get k d, s, st => (RedisSession.get k d s st).map (fun r => r.2)
  | .iter, s, st => (RedisSession.iterKeys s st).map (fun r => r.2)
  | .has_key k, s, st => (RedisSession.has_key k s st).map (fun r => r.2)
  | .values, s, st => (RedisSession.values s st).map (fun r => r.2)
  | .itervalues, s, st => (RedisSession.itervalues s st).map (fun r => r.2)
  | .iteritems, s, st => (RedisSession.iteritems s st).map (fun r => r.2)
  | .iterkeys, s, st => (RedisSession.iterkeys s st).map (fun r => r.2)

theorem except_map_snd_ok {α β : Type} (x : Except PyErr (α × β)) (y : β)
    (h : x.map (fun r => r.2) = Except.ok y) : ∃ r, x = Except.ok (r, y) := by
  cases x with
  | error e => simp [Except.map] at h
  | ok p =>
      simp [Except.map] at h
      exact ⟨p.1, by rw [← h]⟩

theorem persistWrap_ok {α : Type} (inner : RedisSession → Except PyErr (α × RedisSession))
    (s : RedisSession) (st : Store) (r : α) (s2 : RedisSession) (st2 : Store)
    (h : persistWrap inner s st = Except.ok (r, s2, st2)) :
    inner s = Except.ok (r, s2) ∧
    ∃ bs, serialize (.map s2.managed_dict) = some bs ∧
      redisGet st2 s2.session_id = some bs ∧
      ttlOf st2 s2.session_id = (if s2.timeout ≠ 0 then some s2.timeout else none) := by
  unfold persistWrap persistStep at h
  cases hi : inner s with
  | error e => rw [hi] at h; simp at h
  | ok p =>
      obtain ⟨r0, s0⟩ := p
      rw [hi] at h
      simp only [] at h
      cases hser : serialize (.map s0.managed_dict) with
      | none =>
          rw [hser] at h
          simp at h
      | some bs =>
          rw [hser] at h
          simp at h
          obtain ⟨hr, hs2, hst2⟩ := h
          subst hr
          subst hs2
          constructor
          · rfl
          refine ⟨bs, hser, ?_, ?_⟩
          · rw [← hst2]
            by_cases ht : s0.timeout = 0 <;>
              simp [ht, redisGet_setex_self, redisGet_set_self]
          · rw [← hst2]
            by_cases ht : s0.timeout = 0 <;>
              simp [ht, ttlOf_setex_self, ttlOf_set_self]

theorem refreshWrap_ok {α : Type} (inner : RedisSession → Except PyErr (α × RedisSession))
    (s : RedisSession) (st : Store) (r : α) (s2 : RedisSession) (st2 : Store)
    (h : refreshWrap inner s st = Except.ok (r, s2, st2)) :
    inner s = Except.ok (r, s2) ∧
    st2 = (if s2.timeout ≠ 0 then redisExpire st s2.session_id s2.timeout else st) := by
  unfold refreshWrap at h
  cases hi : inner s with
  | error e => rw [hi] at h; simp at h
  | ok p =>
      obtain ⟨r0, s0⟩ := p
      rw [hi] at h
      simp at h
      obtain ⟨hr, hs2, hst2⟩ := h
      subst hr
      subst hs2
      refine ⟨rfl, ?_⟩
      rw [← hst2]
      by_cases ht : s0.timeout = 0 <;> simp [ht]

/-- C5: every mutating session operation that returns persists the full
current payload under the session's id before returning: the store then
holds the serialization of the in-memory dict, with TTL equal to the
session's (post-operation) timeout when it is nonzero and no TTL when the
timeout is 0. -/
theorem mutating_ops_persist (op : MutatingOp) (s : RedisSession) (st : Store)
    (s2 : RedisSession) (st2 : Store) (h : applyMutating op s st = Except.ok (s2, st2)) :
    s2.session_id = s.session_id ∧
    ∃ bs, serialize (.map s2.managed_dict) = some bs ∧
      redisGet st2 s2.session_id = some bs ∧
      ttlOf st2 s2.session_id = (if s2.timeout ≠ 0 then some s2.timeout else none) := by
  cases op with
  | setitem k v =>
      simp only [applyMutating, RedisSession.setitem] at h
      obtain ⟨r, hw⟩ := except_map_snd_ok _ _ h
      obtain ⟨hinner, post⟩ := persistWrap_ok _ _ _ _ _ _ hw
      refine ⟨?_, post⟩
      rw [Except.ok.injEq, Prod.mk.injEq] at hinner
      rw [← hinner.2]
  | delitem k =>
      simp only [applyMutating, RedisSession.delitem] at h
      obtain ⟨r, hw⟩ := except_map_snd_ok _ _ h
      obtain ⟨hinner, post⟩ := persistWrap_ok _ _ _ _ _ _ hw
      refine ⟨?_, post⟩
      cases hl : s.managed_dict.lookup k with
      | none => rw [hl] at hinner; simp at hinner
      | some v0 =>
          rw [hl] at hinner
          rw [Except.ok.injEq, Prod.mk.injEq] at hinner
          rw [← hinner.2]
  | setdefault k d =>
      simp only [applyMutating, RedisSession.setdefault] at h
      obtain ⟨r, hw⟩ := except_map_snd_ok _ _ h
      obtain ⟨hinner, post⟩ := persistWrap_ok _ _ _ _ _ _ hw
      refine ⟨?_, post⟩
      cases hl : s.managed_dict.lookup k with
      | none =>
          rw [hl] at hinner
          rw [Except.ok.injEq, Prod.mk.injEq] at hinner
          rw [← hinner.2]
      | some v0 =>
          rw [hl] at hinner
          rw [Except.ok.injEq, Prod.mk.injEq] at hinner
          rw [← hinner.2]
  | clear =>
      simp only [applyMutating, RedisSession.clear] at h
      obtain ⟨r, hw⟩ := except_map_snd_ok _ _ h
      obtain ⟨hinner, post⟩ := persistWrap_ok _ _ _ _ _ _ hw
      refine ⟨?_, post⟩
      rw [Except.ok.injEq, Prod.mk.injEq] at hinner
      rw [← hinner.2]
  | pop k d =>
      simp only [applyMutating, RedisSession.pop] at h
      obtain ⟨r, hw⟩ := except_map_snd_ok _ _ h
      obtain ⟨hinner, post⟩ := persistWrap_ok _ _ _ _ _ _ hw
      refine ⟨?_, post⟩
      cases hl : s.managed_dict.lookup k with
      | none =>
          rw [hl] at hinner
          rw [Except.ok.injEq, Prod.mk.injEq] at hinner
          rw [← hinner.2]
      | some v0 =>
          rw [hl] at hinner
          rw [Except.ok.injEq, Prod.mk.injEq] at hinner
          rw [← hinner.2]
  | update other =>
      simp only [applyMutating, RedisSession.update] at h
      obtain ⟨r, hw⟩ := except_map_snd_ok _ _ h
      obtain ⟨hinner, post⟩ := persistWrap_ok _ _ _ _ _ _ hw
      refine ⟨?_, post⟩
      rw [Except.ok.injEq, Prod.mk.injEq] at hinner
      rw [← hinner.2]
  | popitem =>
      simp only [applyMutating, RedisSession.popitem] at h
      obtain ⟨r, hw⟩ := except_map_snd_ok _ _ h
      obtain ⟨hinner, post⟩ := persistWrap_ok _ _ _ _ _ _ hw
      refine ⟨?_, post⟩
      cases hd : s.managed_dict with
      | nil => rw [hd] at hinner; simp at hinner
      | cons k0 v0 tl =>
          rw [hd] at hinner
          rw [Except.ok.injEq, Prod.mk.injEq] at hinner
          rw [← hinner.2]
  | changed =>
      simp only [applyMutating, RedisSession.changed] at h
      obtain ⟨r, hw⟩ := except_map_snd_ok _ _ h
      obtain ⟨hinner, post⟩ := persistWrap_ok _ _ _ _ _ _ hw
      refine ⟨?_, post⟩
      rw [Except.ok.injEq, Prod.mk.injEq] at hinner
      rw [← hinner.2]
  | set_timeout =>
      simp only [applyMutating, RedisSession.set_timeout] at h
      obtain ⟨r, hw⟩ := except_map_snd_ok _ _ h
      obtain ⟨hinner, post⟩ := persistWrap_ok _ _ _ _ _ _ hw
      refine ⟨?_, post⟩
      by_cases hm : MPPairs.mem ({ s with timeout := s.default_timeout }).managed_dict keyOn
      · rw [if_pos hm] at hinner
        rw [Except.ok.injEq, Prod.mk.injEq] at hinner
        rw [← hinner.2]
      · rw [if_neg hm] at hinner
        rw [Except.ok.injEq, Prod.mk.injEq] at hinner
        rw [← hinner.2]
  | dont_expire =>
      simp only [applyMutating, RedisSession.dont_expire] at h
      obtain ⟨r, hw⟩ := except_map_snd_ok _ _ h
      obtain ⟨hinner, post⟩ := persistWrap_ok _ _ _ _ _ _ hw
      refine ⟨?_, post⟩
      rw [Except.ok.injEq, Prod.mk.injEq] at hinner
      rw [← hinner.2]

/-- C5 witness: `changed()` on a session with timeout 1200 and empty dict
against the empty store writes the serialized empty payload with TTL 1200. -/
theorem mutating_ops_persist_witness :
    applyMutating MutatingOp.changed (RedisSession.mk [83] MPPairs.nil 1200 1200 false) [] =
      Except.ok (RedisSession.mk [83] MPPairs.nil 1200 1200 false,
        [([83], [128], some 1200)]) ∧
    ((RedisSession.mk [83] MPPairs.nil 1200 1200 false).session_id =
        (RedisSession.mk [83] MPPairs.nil 1200 1200 false).session_id ∧
      ∃ bs, serialize (.map (RedisSession.mk [83] MPPairs.nil 1200 1200
          false).managed_dict) = some bs ∧
        redisGet [([83], [128], some 1200)]
            (RedisSession.mk [83] MPPairs.nil 1200 1200 false).session_id = some bs ∧
        ttlOf [([83], [128], some 1200)]
            (RedisSession.mk [83] MPPairs.nil 1200 1200 false).session_id =
          (if (RedisSession.mk [83] MPPairs.nil 1200 1200 false).timeout ≠ 0 then
            some (RedisSession.mk [83] MPPairs.nil 1200 1200 false).timeout else none)) :=
  ⟨by decide, mutating_ops_persist MutatingOp.changed
    (RedisSession.mk [83] MPPairs.nil 1200 1200 false) []
    (RedisSession.mk [83] MPPairs.nil 1200 1200 false)
    [([83], [128], some 1200)] (by decide)⟩

theorem refresh_frame (s : RedisSession) (st : Store) (st2 : Store)
    (hex : redisExists st s.session_id = true)
    (hst2 : st2 = if s.timeout ≠ 0 then redisExpire st s.session_id s.timeout else st) :
    (∀ k, redisGet st2 k = redisGet st k) ∧
    ttlOf st2 s.session_id =
      (if s.timeout ≠ 0 then some s.timeout else ttlOf st s.session_id) ∧
    (∀ k, k ≠ s.session_id → ttlOf st2 k = ttlOf st k) := by
  subst hst2
  refine ⟨?_, ?_, ?_⟩
  · intro k
    by_cases ht : s.timeout = 0
    · simp [ht]
    · simp [ht, redisGet_expire]
  · by_cases ht : s.timeout = 0
    · simp [ht]
    · simp [ht, ttlOf_expire_self st s.session_id s.timeout hex]
  · intro k hk
    by_cases ht : s.timeout = 0
    · simp [ht]
    · simp [ht, ttlOf_expire_other st s.session_id s.timeout k hk]

/-- C6: every read-only session operation that returns leaves the session
and all stored values unchanged, and touches TTLs as follows: when the
session's timeout T is nonzero the (existing) key's TTL is reset to T and
no other key's TTL changes; when T = 0 no TTL changes at all. -/
theorem read_ops_refresh_only (op : ReadOp) (s : RedisSession) (st : Store)
    (s2 : RedisSession) (st2 : Store) (h : applyRead op s st = Except.ok (s2, st2))
    (hex : redisExists st s.session_id = true) :
    s2 = s ∧ (∀ k, redisGet st2 k = redisGet st k) ∧
    ttlOf st2 s.session_id =
      (if s.timeout ≠ 0 then some s.timeout else ttlOf st s.session_id) ∧
    (∀ k, k ≠ s.session_id → ttlOf st2 k = ttlOf st k) := by
  cases op with
  | getitem k =>
      simp only [applyRead, RedisSession.getitem] at h
      obtain ⟨r, hw⟩ := except_map_snd_ok _ _ h
      obtain ⟨hinner, hst2⟩ := refreshWrap_ok _ _ _ _ _ _ hw
      cases hl : s.managed_dict.lookup k with
      | none => rw [hl] at hinner; simp at hinner
      | some v0 =>
          rw [hl] at hinner
          rw [Except.ok.injEq, Prod.mk.injEq] at hinner
          obtain ⟨_, hs⟩ := hinner
          subst hs
          exact ⟨rfl, refresh_frame s st st2 hex hst2⟩
  | contains k =>
      simp only [applyRead, RedisSession.containsKey] at h
      obtain ⟨r, hw⟩ := except_map_snd_ok _ _ h
      obtain ⟨hinner, hst2⟩ := refreshWrap_ok _ _ _ _ _ _ hw
      rw [Except.ok.injEq, Prod.mk.injEq] at hinner
      obtain ⟨_, hs⟩ := hinner
      subst hs
      exact ⟨rfl, refresh_frame s st st2 hex hst2⟩
  | keys =>
      simp only [applyRead, RedisSession.keys] at h
      obtain ⟨r, hw⟩ := except_map_snd_ok _ _ h
      obtain ⟨hinner, hst2⟩ := refreshWrap_ok _ _ _ _ _ _ hw
      rw [Except.ok.injEq, Prod.mk.injEq] at hinner
      obtain ⟨_, hs⟩ := hinner
      subst hs
      exact ⟨rfl, refresh_frame s st st2 hex hst2⟩
  | items =>
      simp only [applyRead, RedisSession.items] at h
      obtain ⟨r, hw⟩ := except_map_snd_ok _ _ h
      obtain ⟨hinner, hst2⟩ := refreshWrap_ok _ _ _ _ _ _ hw
      rw [Except.ok.injEq, Prod.mk.injEq] at hinner
      obtain ⟨_, hs⟩ := hinner
      subst hs
      exact ⟨rfl, refresh_frame s st st2 hex hst2⟩
  | get k d =>
      simp only [applyRead, RedisSession.get] at h
      obtain ⟨r, hw⟩ := except_map_snd_ok _ _ h
      obtain ⟨hinner, hst2⟩ := refreshWrap_ok _ _ _ _ _ _ hw
      rw [Except.ok.injEq, Prod.mk.injEq] at hinner
      obtain ⟨_, hs⟩ := hinner
      subst hs
      exact ⟨rfl, refresh_frame s st st2 hex hst2⟩
  | iter =>
      simp only [applyRead, RedisSession.iterKeys] at h
      obtain ⟨r, hw⟩ := except_map_snd_ok _ _ h
      obtain ⟨hinner, hst2⟩ := refreshWrap_ok _ _ _ _ _ _ hw
      rw [Except.ok.injEq, Prod.mk.injEq] at hinner
      obtain ⟨_, hs⟩ := hinner
      subst hs
      exact ⟨rfl, refresh_frame s st st2 hex hst2⟩
  | has_key k =>
      simp only [applyRead, RedisSession.has_key] at h
      obtain ⟨r, hw⟩ := except_map_snd_ok _ _ h
      obtain ⟨hinner, hst2⟩ := refreshWrap_ok _ _ _ _ _ _ hw
      rw [Except.ok.injEq, Prod.mk.injEq] at hinner
      obtain ⟨_, hs⟩ := hinner
      subst hs
      exact ⟨rfl, refresh_frame s st st2 hex hst2⟩
  | values =>
      simp only [applyRead, RedisSession.values] at h
      obtain ⟨r, hw⟩ := except_map_snd_ok _ _ h
      obtain ⟨hinner, hst2⟩ := refreshWrap_ok _ _ _ _ _ _ hw
      rw [Except.ok.injEq, Prod.mk.injEq] at hinner
      obtain ⟨_, hs⟩ := hinner
      subst hs
      exact ⟨rfl, refresh_frame s st st2 hex hst2⟩
  | itervalues =>
      simp only [applyRead, RedisSession.itervalues] at h
      obtain ⟨r, hw⟩ := except_map_snd_ok _ _ h
      obtain ⟨hinner, hst2⟩ := refreshWrap_ok _ _ _ _ _ _ hw
      rw [Except.ok.injEq, Prod.mk.injEq] at hinner
      obtain ⟨_, hs⟩ := hinner
      subst hs
      exact ⟨rfl, refresh_frame s st st2 hex hst2⟩
  | iteritems =>
      simp only [applyRead, RedisSession.iteritems] at h
      obtain ⟨r, hw⟩ := except_map_snd_ok _ _ h
      obtain ⟨hinner, hst2⟩ := refreshWrap_ok _ _ _ _ _ _ hw
      rw [Except.ok.injEq, Prod.mk.injEq] at hinner
      obtain ⟨_, hs⟩ := hinner
      subst hs
      exact ⟨rfl, refresh_frame s st st2 hex hst2⟩
  | iterkeys =>
      simp only [applyRead, RedisSession.iterkeys] at h
      obtain ⟨r, hw⟩ := except_map_snd_ok _ _ h
      obtain ⟨hinner, hst2⟩ := refreshWrap_ok _ _ _ _ _ _ hw
      rw [Except.ok.injEq, Prod.mk.injEq] at hinner
      obtain ⟨_, hs⟩ := hinner
      subst hs
      exact ⟨rfl, refresh_frame s st st2 hex hst2⟩

/-- C6 witness: `keys()` on a session with timeout 1200 whose key currently
has TTL 5 resets the TTL to 1200 and changes nothing else. -/
theorem read_ops_refresh_only_witness :
    applyRead ReadOp.keys (RedisSession.mk [83] MPPairs.nil 1200 1200 false)
        [([83], [128], some 5)] =
      Except.ok (RedisSession.mk [83] MPPairs.nil 1200 1200 false,
        [([83], [128], some 1200)]) ∧
    redisExists [([83], [128], some 5)]
        (RedisSession.mk [83] MPPairs.nil 1200 1200 false).session_id = true ∧
    (RedisSession.mk [83] MPPairs.nil 1200 1200 false =
        RedisSession.mk [83] MPPairs.nil 1200 1200 false ∧
      (∀ k, redisGet [([83], [128], some 1200)] k = redisGet [([83], [128], some 5)] k) ∧
      ttlOf [([83], [128], some 1200)]
          (RedisSession.mk [83] MPPairs.nil 1200 1200 false).session_id =
        (if (RedisSession.mk [83] MPPairs.nil 1200 1200 false).timeout ≠ 0 then
          some (RedisSession.mk [83] MPPairs.nil 1200 1200 false).timeout
         else ttlOf [([83], [128], some 5)]
          (RedisSession.mk [83] MPPairs.nil 1200 1200 false).session_id) ∧
      (∀ k, k ≠ (RedisSession.mk [83] MPPairs.nil 1200 1200 false).session_id →
        ttlOf [([83], [128], some 1200)] k = ttlOf [([83], [128], some 5)] k)) :=
  ⟨by decide, by decide,
    read_ops_refresh_only ReadOp.keys (RedisSession.mk [83] MPPairs.nil 1200 1200 false)
      [([83], [128], some 5)] (RedisSession.mk [83] MPPairs.nil 1200 1200 false)
      [([83], [128], some 1200)] (by decide) (by decide)⟩

/-- C10: persist-wrapped operations write the full serialized payload even
when the in-memory payload is unchanged — pop of an absent key with a
default, setdefault of an already-present key, and `changed()` all leave
the dict as it was and still write it to the store (with TTL when the
timeout is nonzero). -/
theorem persist_writes_even_unchanged (s : RedisSession) (st : Store) :
    (∀ key default r s2 st2, s.managed_dict.mem key = false →
      RedisSession.pop key default s st = Except.ok (r, s2, st2) →
      s2.managed_dict = s.managed_dict ∧
      ∃ bs, serialize (.map s.managed_dict) = some bs ∧
        redisGet st2 s.session_id = some bs ∧
        ttlOf st2 s.session_id = (if s.timeout ≠ 0 then some s.timeout else none)) ∧
    (∀ key default r s2 st2, s.managed_dict.mem key = true →
      RedisSession.setdefault key default s st = Except.ok (r, s2, st2) →
      s2.managed_dict = s.managed_dict ∧
      ∃ bs, serialize (.map s.managed_dict) = some bs ∧
        redisGet st2 s.session_id = some bs ∧
        ttlOf st2 s.session_id = (if s.timeout ≠ 0 then some s.timeout else none)) ∧
    (∀ r s2 st2, RedisSession.changed s st = Except.ok (r, s2, st2) →
      s2.managed_dict = s.managed_dict ∧
      ∃ bs, serialize (.map s.managed_dict) = some bs ∧
        redisGet st2 s.session_id = some bs ∧
        ttlOf st2 s.session_id = (if s.timeout ≠ 0 then some s.timeout else none)) := by
  refine ⟨?_, ?_, ?_⟩
  · intro key default r s2 st2 hmem h
    obtain ⟨hinner, post⟩ := persistWrap_ok _ _ _ _ _ _ h
    cases hl : s.managed_dict.lookup key with
    | some v0 => rw [MPPairs.mem, hl] at hmem; simp at hmem
    | none =>
        rw [hl] at hinner
        rw [Except.ok.injEq, Prod.mk.injEq] at hinner
        obtain ⟨_, hs⟩ := hinner
        subst hs
        exact ⟨rfl, post⟩
  · intro key default r s2 st2 hmem h
    obtain ⟨hinner, post⟩ := persistWrap_ok _ _ _ _ _ _ h
    cases hl : s.managed_dict.lookup key with
    | none => rw [MPPairs.mem, hl] at hmem; simp at hmem
    | some v0 =>
        rw [hl] at hinner
        rw [Except.ok.injEq, Prod.mk.injEq] at hinner
        obtain ⟨_, hs⟩ := hinner
        subst hs
        exact ⟨rfl, post⟩
  · intro r s2 st2 h
    obtain ⟨hinner, post⟩ := persistWrap_ok _ _ _ _ _ _ h
    rw [Except.ok.injEq, Prod.mk.injEq] at hinner
    obtain ⟨_, hs⟩ := hinner
    subst hs
    exact ⟨rfl, post⟩

instance : DecidableEq (MPVal × RedisSession × Store) := instDecidableEqProd

/-- C10 witness: popping the absent key `"b"` with default `nil` from a
one-entry session dict leaves the dict unchanged and still writes the
serialized payload with TTL 1200. -/
theorem persist_writes_even_unchanged_witness :
    (RedisSession.mk [83] (MPPairs.cons (.str [97]) (.int 1) .nil) 1200 1200
        false).managed_dict.mem (.str [98]) = false ∧
    RedisSession.pop (.str [98]) .nil
        (RedisSession.mk [83] (MPPairs.cons (.str [97]) (.int 1) .nil) 1200 1200 false) [] =
      Except.ok (.nil,
        RedisSession.mk [83] (MPPairs.cons (.str [97]) (.int 1) .nil) 1200 1200 false,
        [([83], [129, 161, 97, 1], some 1200)]) ∧
    ((RedisSession.mk [83] (MPPairs.cons (.str [97]) (.int 1) .nil) 1200 1200
        false).managed_dict =
      (RedisSession.mk [83] (MPPairs.cons (.str [97]) (.int 1) .nil) 1200 1200
        false).managed_dict ∧
      ∃ bs, serialize (.map (RedisSession.mk [83]
          (MPPairs.cons (.str [97]) (.int 1) .nil) 1200 1200 false).managed_dict) =
            some bs ∧
        redisGet [([83], [129, 161, 97, 1], some 1200)]
            (RedisSession.mk [83] (MPPairs.cons (.str [97]) (.int 1) .nil) 1200 1200
              false).session_id = some bs ∧
        ttlOf [([83], [129, 161, 97, 1], some 1200)]
            (RedisSession.mk [83] (MPPairs.cons (.str [97]) (.int 1) .nil) 1200 1200
              false).session_id =
          (if (RedisSession.mk [83] (MPPairs.cons (.str [97]) (.int 1) .nil) 1200 1200
              false).timeout ≠ 0 then
            some (RedisSession.mk [83] (MPPairs.cons (.str [97]) (.int 1) .nil) 1200 1200
              false).timeout
           else none)) :=
  ⟨by decide, by decide,
    (persist_writes_even_unchanged
      (RedisSession.mk [83] (MPPairs.cons (.str [97]) (.int 1) .nil) 1200 1200 false)
      []).1 (.str [98]) .nil .nil
      (RedisSession.mk [83] (MPPairs.cons (.str [97]) (.int 1) .nil) 1200 1200 false)
      [([83], [129, 161, 97, 1], some 1200)] (by decide) (by decide)⟩

theorem MPPairs.lookup_set_self : ∀ (m : MPPairs) (k v : MPVal),
    (m.set k v).lookup k = some v
  | .nil, k, v => by simp [MPPairs.set, MPPairs.lookup]
  | .cons k0 v0 tl, k, v => by
      by_cases h : k0 = k
      · simp [MPPairs.set, MPPairs.lookup, h]
      · simp [MPPairs.set, MPPairs.lookup, h, MPPairs.lookup_set_self tl k v]

theorem MPPairs.mem_set_self (m : MPPairs) (k v : MPVal) :
    (m.set k v).mem k = true := by
  simp [MPPairs.mem, MPPairs.lookup_set_self]

theorem MPPairs.lookup_set_other : ∀ (m : MPPairs) (k v x : MPVal), x ≠ k →
    (m.set k v).lookup x = m.lookup x
  | .nil, k, v, x, h => by
      have h2 : ¬ (k = x) := fun hh => h hh.symm
      simp [MPPairs.set, MPPairs.lookup, h2]
  | .cons k0 v0 tl, k, v, x, h => by
      by_cases h0 : k0 = k
      · have h2 : ¬ (k = x) := fun hh => h hh.symm
        simp [MPPairs.set, MPPairs.lookup, h0, h2]
      · by_cases h1 : k0 = x
        · simp [MPPairs.set, MPPairs.lookup, h0, h1, h]
        · simp [MPPairs.set, MPPairs.lookup, h0, h1,
            MPPairs.lookup_set_other tl k v x h]

theorem MPPairs.nodup_set : ∀ (m : MPPairs) (k v : MPVal), m.nodupKeys = true →
    (m.set k v).nodupKeys = true
  | .nil, k, v, h => by
      simp [MPPairs.set, MPPairs.nodupKeys, MPPairs.mem, MPPairs.lookup]
  | .cons k0 v0 tl, k, v, h => by
      rw [MPPairs.nodupKeys, Bool.and_eq_true, Bool.not_eq_true'] at h
      obtain ⟨h1, h2⟩ := h
      by_cases h0 : k0 = k
      · subst h0
        simp [MPPairs.set, MPPairs.nodupKeys, h1, h2]
      · have hx : (tl.set k v).mem k0 = false := by
          rw [MPPairs.mem, MPPairs.lookup_set_other tl k v k0 h0, ← MPPairs.mem, h1]
        simp [MPPairs.set, MPPairs.nodupKeys, h0, hx, MPPairs.nodup_set tl k v h2]

theorem MPPairs.mem_erase_self : ∀ (m : MPPairs) (k : MPVal), m.nodupKeys = true →
    (m.erase k).mem k = false
  | .nil, k, h => by simp [MPPairs.erase, MPPairs.mem, MPPairs.lookup]
  | .cons k0 v0 tl, k, h => by
      rw [MPPairs.nodupKeys, Bool.and_eq_true, Bool.not_eq_true'] at h
      obtain ⟨h1, h2⟩ := h
      by_cases h0 : k0 = k
      · subst h0
        simp [MPPairs.erase, h1]
      · simp [MPPairs.erase, MPPairs.mem, MPPairs.lookup, h0]
        have hih := MPPairs.mem_erase_self tl k h2
        rw [MPPairs.mem] at hih
        cases hE : (tl.erase k).lookup k with
        | none => rfl
        | some v1 => rw [hE] at hih; simp at hih

theorem init_ok (st : Store) (sid : Bytes) (t : Nat) (d : MPPairs)
    (hfr : from_redis st sid = Except.ok (.map d)) (s2 : RedisSession)
    (hinit : RedisSession.init st sid t = Except.ok s2) :
    s2 = ⟨sid, d, t, if d.mem keyOn then 0 else t, false⟩ := by
  unfold RedisSession.init at hinit
  rw [hfr] at hinit
  simp [asDict] at hinit
  exact hinit.symm

theorem set_timeout_ok (s : RedisSession) (st : Store) (r : Unit) (s3 : RedisSession)
    (st4 : Store) (h : RedisSession.set_timeout s st = Except.ok (r, s3, st4)) :
    s3.timeout = s.default_timeout ∧
    s3.managed_dict =
      (if s.managed_dict.mem keyOn then s.managed_dict.erase keyOn
       else s.managed_dict) := by
  obtain ⟨hinner, _⟩ := persistWrap_ok _ _ _ _ _ _ h
  by_cases hm : s.managed_dict.mem keyOn = true
  · simp [hm] at hinner
    subst hinner
    refine ⟨rfl, ?_⟩
    rw [if_pos hm]
  · simp [hm] at hinner
    subst hinner
    refine ⟨rfl, ?_⟩
    rw [if_neg hm]

/-- C7: `dont_expire` sets the timeout to 0, writes the sentinel `'on'`
into the payload and persists it; any later load of that persisted blob
(for any configured default) yields timeout 0 because only the presence
of `'on'` is checked; calling `set_timeout` on the reloaded session
restores the configured default and removes the sentinel.  The
`nodupKeys` hypothesis is the dict invariant every Python dict has. -/
theorem dont_expire_then_reload (s : RedisSession) (st : Store)
    (hnd : s.managed_dict.nodupKeys = true)
    (r : Unit) (s1 : RedisSession) (st1 : Store)
    (h : RedisSession.dont_expire s st = Except.ok (r, s1, st1)) :
    s1.timeout = 0 ∧
    s1.managed_dict.lookup keyOn = some (.bool true) ∧
    (∀ t2 s2, RedisSession.init st1 s.session_id t2 = Except.ok s2 →
      s2.timeout = 0 ∧
      ∀ st3 r3 s3 st4, RedisSession.set_timeout s2 st3 = Except.ok (r3, s3, st4) →
        s3.timeout = t2 ∧ s3.managed_dict.mem keyOn = false) := by
  obtain ⟨hinner, post⟩ := persistWrap_ok _ _ _ _ _ _ h
  rw [Except.ok.injEq, Prod.mk.injEq] at hinner
  obtain ⟨hr, hs⟩ := hinner
  obtain ⟨bs, hser, hget, httl⟩ := post
  have hs_id : s1.session_id = s.session_id := by rw [← hs]
  have hs_dict : s1.managed_dict = s.managed_dict.set keyOn (.bool true) := by rw [← hs]
  have hs_t : s1.timeout = 0 := by rw [← hs]
  refine ⟨hs_t, ?_, ?_⟩
  · rw [hs_dict]
    exact MPPairs.lookup_set_self _ _ _
  · intro t2 s2 hinit
    have hget' : redisGet st1 s.session_id = some bs := by rw [← hs_id]; exact hget
    have hser' : serialize (.map (s.managed_dict.set keyOn (.bool true))) = some bs := by
      rw [← hs_dict]; exact hser
    have hfr : from_redis st1 s.session_id =
        Except.ok (.map (s.managed_dict.set keyOn (.bool true))) := by
      unfold from_redis
      rw [hget']
      exact deserialize_serialize _ _ hser'
    have hs2 := init_ok st1 s.session_id t2 _ hfr s2 hinit
    have h2_t : s2.timeout = 0 := by
      rw [hs2]
      simp [MPPairs.mem_set_self]
    have h2_dict : s2.managed_dict = s.managed_dict.set keyOn (.bool true) := by rw [hs2]
    have h2_dt : s2.default_timeout = t2 := by rw [hs2]
    refine ⟨h2_t, ?_⟩
    intro st3 r3 s3 st4 hst
    obtain ⟨h3_t, h3_dict⟩ := set_timeout_ok s2 st3 r3 s3 st4 hst
    refine ⟨by rw [h3_t, h2_dt], ?_⟩
    rw [h3_dict, h2_dict, if_pos (MPPairs.mem_set_self _ _ _)]
    exact MPPairs.mem_erase_self _ _ (MPPairs.nodup_set _ _ _ hnd)

instance : DecidableEq (Unit × RedisSession × Store) := instDecidableEqProd

/-- C7 witness: the indefinite-mode round trip on a fresh session with
default timeout 1200. -/
theorem dont_expire_then_reload_witness :
    (RedisSession.mk [83] MPPairs.nil 1200 1200 false).managed_dict.nodupKeys = true ∧
    RedisSession.dont_expire (RedisSession.mk [83] MPPairs.nil 1200 1200 false) [] =
      Except.ok ((),
        RedisSession.mk [83] (MPPairs.cons keyOn (.bool true) .nil) 1200 0 false,
        [([83], [129, 162, 111, 110, 195], none)]) ∧
    ((RedisSession.mk [83] (MPPairs.cons keyOn (.bool true) .nil) 1200 0 false).timeout = 0 ∧
      (RedisSession.mk [83] (MPPairs.cons keyOn (.bool true) .nil) 1200 0
          false).managed_dict.lookup keyOn = some (.bool true) ∧
      (∀ t2 s2, RedisSession.init [([83], [129, 162, 111, 110, 195], none)]
          (RedisSession.mk [83] MPPairs.nil 1200 1200 false).session_id t2 =
            Except.ok s2 →
        s2.timeout = 0 ∧
        ∀ st3 r3 s3 st4, RedisSession.set_timeout s2 st3 = Except.ok (r3, s3, st4) →
          s3.timeout = t2 ∧ s3.managed_dict.mem keyOn = false)) :=
  ⟨by decide, by decide,
    dont_expire_then_reload (RedisSession.mk [83] MPPairs.nil 1200 1200 false) []
      (by decide) ()
      (RedisSession.mk [83] (MPPairs.cons keyOn (.bool true) .nil) 1200 0 false)
      [([83], [129, 162, 111, 110, 195], none)] (by decide)⟩

/-- Membership of a value in an embedded msgpack list (Python `x in list`). -/
def MPList.memB : MPList → MPVal → Bool
  | .nil, _ => false
  | .cons v tl, x => if v = x then true else tl.memB x

/-- Append one element at the end (Python `list.append`, which mutates the
list object in place; the functional model returns the grown list). -/
def MPList.snoc : MPList → MPVal → MPList
  | .nil, x => .cons x .nil
  | .cons v tl, x => .cons v (tl.snoc x)

/-- Byte-string containment, Python 2 `sub in s` on strings. -/
def bytesSubstr (needle hay : Bytes) : Bool :=
  match hay with
  | [] => needle.isEmpty
  | _ :: tl => needle.isPrefixOf hay || bytesSubstr needle tl

/-- Python `x in container` on the payload values flash works with: list
membership, substring test on strings, key membership on dicts; `in` on
other values raises `TypeError`. -/
def pyContains (container x : MPVal) : Except PyErr Bool :=
  match container with
  | .arr l => .ok (l.memB x)
  | .str s =>
      match x with
      | .str xs => .ok (bytesSubstr xs s)
      | _ => .error PyErr.typeError
  | .map m => .ok (m.mem x)
  | _ => .error PyErr.typeError

/-- Python `container.append(x)`: only lists have `append`; anything else
raises `AttributeError`. -/
def pyAppend (container x : MPVal) : Except PyErr MPVal :=
  match container with
  | .arr l => .ok (.arr (l.snoc x))
  | _ => .error PyErr.attributeError

/-- The reserved flash-queue payload key `'_f_' + queue`. -/
def flashKeyBytes (queue : Bytes) : Bytes := [95, 102, 95] ++ queue

/-- Embeds `RedisSession.flash`: `setdefault` the queue's list (a
persist-wrapped call), append the message unless `allow_duplicate` is
false and it is already present, and notify the store of the in-place
list mutation via `changed()`.  The in-place `storage.append(msg)` on the
list aliased inside `managed_dict` is modelled by updating the dict entry
to the grown list before `changed()` persists. -/
def RedisSession.flash (msg queue : Bytes) (allow_duplicate : Bool)
    (s : RedisSession) (st : Store) : Except PyErr (RedisSession × Store) :=
  match RedisSession.setdefault (.str (flashKeyBytes queue)) (.arr .nil) s st with
  | .error e => .error e
  | .ok (storage, s1, st1) =>
      match (if allow_duplicate then Except.ok true
             else match pyContains storage (.str msg) with
                  | .error e => Except.error e
                  | .ok b => Except.ok (!b)) with
      | .error e => .error e
      | .ok proceed =>
          if proceed then
            match pyAppend storage (.str msg) with
            | .error e => .error e
            | .ok grown =>
                let s2 := { s1 with managed_dict :=
                  s1.managed_dict.set (.str (flashKeyBytes queue)) grown }
                match RedisSession.changed s2 st1 with
                | .error e => .error e
                | .ok (_, s3, st3) => .ok (s3, st3)
          else .ok (s1, st1)

/-- Embeds `RedisSession.peek_flash`: `get` with an empty-list default. -/
def RedisSession.peek_flash (queue : Bytes) (s : RedisSession) (st : Store) :
    Except PyErr (MPVal × RedisSession × Store) :=
  RedisSession.get (.str (flashKeyBytes queue)) (.arr .nil) s st

/-- Embeds `RedisSession.pop_flash`: `pop` with an empty-list default. -/
def RedisSession.pop_flash (queue : Bytes) (s : RedisSession) (st : Store) :
    Except PyErr (MPVal × RedisSession × Store) :=
  RedisSession.pop (.str (flashKeyBytes queue)) (.arr .nil) s st

/-- The C9 scenario run on a fresh session (empty payload, timeout 1200,
store holding the freshly allocated empty blob): flash `"hello"` twice
with duplicates disallowed, then `pop_flash`, then `peek_flash`.  The
observables collected are the queue's stored list after both flashes,
what `pop_flash` returned, whether the queue key is still in the payload
afterwards, and what `peek_flash` then returns. -/
def flash_scenario_run : Except PyErr (Option MPVal × MPVal × Bool × MPVal) :=
  let hello : Bytes := [104, 101, 108, 108, 111]
  let s0 : RedisSession := ⟨[83], .nil, 1200, 1200, true⟩
  let st0 : Store := [([83], _empty_session, some 1200)]
  match RedisSession.flash hello [] false s0 st0 with
  | .error e => .error e
  | .ok (s1, st1) =>
      match RedisSession.flash hello [] false s1 st1 with
      | .error e => .error e
      | .ok (s2, st2) =>
          match RedisSession.pop_flash [] s2 st2 with
          | .error e => .error e
          | .ok (popped, s3, st3) =>
              match RedisSession.peek_flash [] s3 st3 with
              | .error e => .error e
              | .ok (peeked, _, _) =>
                  .ok (s2.managed_dict.lookup (.str (flashKeyBytes [])),
                       popped,
                       s3.managed_dict.mem (.str (flashKeyBytes [])),
                       peeked)

instance : DecidableEq (Option MPVal × MPVal × Bool × MPVal) := instDecidableEqProd

/-- C9: flashing `"hello"` twice with `allow_duplicate = false` leaves the
queue holding `["hello"]` exactly once; `pop_flash` returns `["hello"]`
and removes the queue key from the payload; a subsequent `peek_flash`
returns `[]`. -/
theorem flash_scenario :
    flash_scenario_run = Except.ok
      (some (.arr (.cons (.str [104, 101, 108, 108, 111]) .nil)),
       .arr (.cons (.str [104, 101, 108, 108, 111]) .nil),
       false,
       .arr .nil) := by
  decide
